import Mathlib

/-!
# Verification of the crossword layout engine (src/src/lib/crossword.js)

This file is a shallow embedding of the layout engine of Crossword Studio.
JavaScript mutation of the board is modelled by explicit state passing;
JavaScript numbers used as grid coordinates are modelled by `Int` (the code
produces negative candidate coordinates in `generatePlacementOptions`);
`Math.random()` is modelled by an explicit stream of draws (`List Nat`): the
JS call `Math.floor(Math.random() * (i + 1))` yields an arbitrary value in
`[0, i]`, which we model as `draw % (i + 1)` for the next stream element, so
the set of realizable shuffles is exactly the same.  Fallible functions
(`throw` in JS) return `Except`.  Words are `List Char` (JS strings indexed
per character), clues are `String` payloads that are never inspected.
-/

deriving instance DecidableEq for Except

set_option maxRecDepth 100000
set_option maxHeartbeats 16000000

namespace Crossword

def MIN_GRID_SIZE : Nat := 10
def MAX_GRID_SIZE : Nat := 25
def MIN_WORDS : Nat := 5
def MAX_WORDS : Nat := 25

/-- The two placement directions of the engine. -/
inductive Direction
| across
| down
deriving DecidableEq, Repr

/-- A board cell: `none` is an empty cell (JS `null`), `some ch` a letter. -/
abbrev Cell := Option Char

/-- The board: a list of rows, as built by `createEmptyGrid`. -/
abbrev Grid := List (List Cell)

/-- Per-cell usage record `{ across, down }` kept by `createUsageGrid`. -/
structure UsageCell where
  across : Bool
  down : Bool
deriving DecidableEq, Repr

abbrev Usage := List (List UsageCell)

/-- Read `grid[r][c]`; out-of-range access yields `none` (JS `undefined`,
which the source code treats exactly like `null` in its truth tests). -/
def getCell (grid : Grid) (r c : Int) : Cell :=
  if 0 ≤ r ∧ 0 ≤ c then (((grid.get? r.toNat).getD []).get? c.toNat).getD none
  else none

/-- Write `grid[r][c] = v`; out-of-range writes are dropped (the source only
writes through coordinates that passed its bounds checks). -/
def setCell (grid : Grid) (r c : Int) (v : Cell) : Grid :=
  if 0 ≤ r ∧ 0 ≤ c then
    match grid.get? r.toNat with
    | some row => grid.set r.toNat (row.set c.toNat v)
    | none => grid
  else grid

def emptyUsageCell : UsageCell := ⟨false, false⟩

/-- Read `usage[r][c]`. -/
def getUsage (usage : Usage) (r c : Int) : UsageCell :=
  if 0 ≤ r ∧ 0 ≤ c then (((usage.get? r.toNat).getD []).get? c.toNat).getD emptyUsageCell
  else emptyUsageCell

def setUsage (usage : Usage) (r c : Int) (v : UsageCell) : Usage :=
  if 0 ≤ r ∧ 0 ≤ c then
    match usage.get? r.toNat with
    | some row => usage.set r.toNat (row.set c.toNat v)
    | none => usage
  else usage

/-- Project the flag of one direction out of a usage cell (JS `u[key]`). -/
def UsageCell.flag (u : UsageCell) : Direction → Bool
| .across => u.across
| .down => u.down

/-- `usage[r][c][key] = b`. -/
def setUsageFlag (usage : Usage) (r c : Int) (d : Direction) (b : Bool) : Usage :=
  match d with
  | .across => setUsage usage r c { getUsage usage r c with across := b }
  | .down => setUsage usage r c { getUsage usage r c with down := b }

/-- `deltaRow` of the source: 1 for down, 0 for across. -/
def deltaRow : Direction → Int
| .down => 1
| .across => 0

/-- `deltaCol` of the source: 1 for across, 0 for down. -/
def deltaCol : Direction → Int
| .across => 1
| .down => 0

/-- `isInsideGrid(row, col, size)` of the source. -/
def isInsideGrid (row col : Int) (size : Nat) : Bool :=
  decide (0 ≤ row) && decide (0 ≤ col) && decide (row < (size : Int)) && decide (col < (size : Int))

/-- The body of the per-letter loop of `canPlace` (source lines 468-514) for
the letter `ch` to be put at `(r, c)`: an occupied cell must hold the same
letter; at a cell the word would newly fill, a perpendicular neighbour that
holds a letter is tolerated only when its usage flag for the perpendicular
direction is set. -/
def canPlaceStep (ch : Char) (r c : Int) (direction : Direction)
    (grid : Grid) (usage : Usage) (size : Nat) : Bool :=
  match getCell grid r c with
  | some existing => decide (existing = ch)
  | none =>
    match direction with
    | .across =>
      !(isInsideGrid (r - 1) c size && (getCell grid (r - 1) c).isSome
          && !(getUsage usage (r - 1) c).down) &&
      !(isInsideGrid (r + 1) c size && (getCell grid (r + 1) c).isSome
          && !(getUsage usage (r + 1) c).down)
    | .down =>
      !(isInsideGrid r (c - 1) size && (getCell grid r (c - 1)).isSome
          && !(getUsage usage r (c - 1)).across) &&
      !(isInsideGrid r (c + 1) size && (getCell grid r (c + 1)).isSome
          && !(getUsage usage r (c + 1)).across)

/-- The per-letter loop of `canPlace`, walking the word from `(r, c)` with
the direction's deltas. -/
def canPlaceLoop (w : List Char) (r c : Int) (direction : Direction)
    (grid : Grid) (usage : Usage) (size : Nat) : Bool :=
  match w with
  | [] => true
  | ch :: rest =>
    canPlaceStep ch r c direction grid usage size &&
      canPlaceLoop rest (r + deltaRow direction) (c + deltaCol direction) direction grid usage size

/-- `canPlace(word, row, col, direction, grid, usage)` (source lines 445-517). -/
def canPlace (word : List Char) (row col : Int) (direction : Direction)
    (grid : Grid) (usage : Usage) : Bool :=
  let size := grid.length
  let dr := deltaRow direction
  let dc := deltaCol direction
  let endRow := row + dr * ((word.length : Int) - 1)
  let endCol := col + dc * ((word.length : Int) - 1)
  if row < 0 ∨ col < 0 ∨ (size : Int) ≤ endRow ∨ (size : Int) ≤ endCol then false
  else
    let beforeRow := row - dr
    let beforeCol := col - dc
    if isInsideGrid beforeRow beforeCol size && (getCell grid beforeRow beforeCol).isSome then false
    else
      let afterRow := row + dr * (word.length : Int)
      let afterCol := col + dc * (word.length : Int)
      if isInsideGrid afterRow afterCol size && (getCell grid afterRow afterCol).isSome then false
      else canPlaceLoop word row col direction grid usage size

/-- A normalized entry `{word, clue, originalIndex}`. -/
structure Entry where
  word : List Char
  clue : String
  originalIndex : Nat
deriving DecidableEq, Repr

/-- A committed placement; `number` is `none` until `assignNumbers` runs
(JS leaves the field absent and later writes `null` or the number). -/
structure Placement where
  word : List Char
  clue : String
  row : Int
  col : Int
  direction : Direction
  entryIndex : Nat
  number : Option Nat
deriving DecidableEq, Repr

/-- One usage update record `{row, col, key}` of `applyPlacement`. -/
structure UsageUpdate where
  row : Int
  col : Int
  key : Direction
deriving DecidableEq, Repr

/-- The loop of `applyPlacement` (source lines 353-362), walking the word:
fills empty cells (recording them in `filledCells`) and raises the usage
flag of the placement's direction at every cell (recording every update). -/
def applyGo (w : List Char) (r c dr dc : Int) (key : Direction)
    (grid : Grid) (usage : Usage) :
    Grid × Usage × List (Int × Int) × List UsageUpdate :=
  match w with
  | [] => (grid, usage, [], [])
  | ch :: rest =>
    let (grid1, filled0) :=
      if getCell grid r c = none then (setCell grid r c (some ch), [(r, c)])
      else (grid, [])
    let usage1 := setUsageFlag usage r c key true
    let (grid2, usage2, filled, updates) :=
      applyGo rest (r + dr) (c + dc) dr dc key grid1 usage1
    (grid2, usage2, filled0 ++ filled, ⟨r, c, key⟩ :: updates)

/-- The result bundle of `applyPlacement` together with the mutated board. -/
structure ApplyResult where
  placement : Placement
  filledCells : List (Int × Int)
  usageUpdates : List UsageUpdate
  grid : Grid
  usage : Usage

/-- `applyPlacement(entry, entryIndex, row, col, direction, grid, usage)`
(source lines 346-376). -/
def applyPlacement (entry : Entry) (entryIndex : Nat) (row col : Int)
    (direction : Direction) (grid : Grid) (usage : Usage) : ApplyResult :=
  let (grid', usage', filledCells, usageUpdates) :=
    applyGo entry.word row col (deltaRow direction) (deltaCol direction) direction grid usage
  { placement :=
      { word := entry.word, clue := entry.clue, row := row, col := col,
        direction := direction, entryIndex := entryIndex, number := none }
    filledCells := filledCells
    usageUpdates := usageUpdates
    grid := grid'
    usage := usage' }

/-- One iteration of the `usageUpdates` loop of `revertPlacement` (source
lines 379-384): clear the recorded flag, then clear the letter as soon as
no direction uses the cell any more. -/
def revertUpdStep (gu : Grid × Usage) (upd : UsageUpdate) : Grid × Usage :=
  let u' := setUsageFlag gu.2 upd.row upd.col upd.key false
  let cell := getUsage u' upd.row upd.col
  (if !cell.across && !cell.down then setCell gu.1 upd.row upd.col none else gu.1, u')

/-- One iteration of the `filledCells` loop of `revertPlacement` (source
lines 385-389), reading the usage map left by the first loop. -/
def revertFillStep (usage1 : Usage) (g : Grid) (cell : Int × Int) : Grid :=
  let u := getUsage usage1 cell.1 cell.2
  if !u.across && !u.down then setCell g cell.1 cell.2 none else g

/-- `revertPlacement(grid, usage, filledCells, usageUpdates)` (source lines
378-390). -/
def revertPlacement (grid : Grid) (usage : Usage)
    (filledCells : List (Int × Int)) (usageUpdates : List UsageUpdate) :
    Grid × Usage :=
  let (grid1, usage1) := usageUpdates.foldl revertUpdStep (grid, usage)
  (filledCells.foldl (revertFillStep usage1) grid1, usage1)

/-- `computeLetterOverlaps(wordA, wordB)` (source lines 201-211): all index
pairs `(i, j)` with `wordA[i] == wordB[j]`, in the source's loop order. -/
def computeLetterOverlaps (wordA wordB : List Char) : List (Nat × Nat) :=
  (List.range wordA.length).flatMap fun i =>
    (List.range wordB.length).filterMap fun j =>
      if wordA.get? i = wordB.get? j then some (i, j) else none

/-- The overlap matrix: association list keyed by the ordered index pair
(the source uses a `Map` with the injective string key `i + ":" + j`). -/
abbrev OverlapMatrix := List ((Nat × Nat) × List (Nat × Nat))

/-- `matrix.get(i + ":" + j)` — `none` models JS `undefined`. -/
def matrixGet (m : OverlapMatrix) (i j : Nat) : Option (List (Nat × Nat)) :=
  (m.find? (fun e => e.1 = (i, j))).map (·.2)

/-- `buildOverlapMatrix(entries)` (source lines 189-199). -/
def buildOverlapMatrix (entries : List Entry) : OverlapMatrix :=
  (List.range entries.length).flatMap fun i =>
    (List.range entries.length).filterMap fun j =>
      if i = j then none
      else some ((i, j),
        computeLetterOverlaps (((entries.get? i).map Entry.word).getD [])
          (((entries.get? j).map Entry.word).getD []))

/-- `calculateOverlapTotals(count, matrix)` (source lines 213-225). -/
def calculateOverlapTotals (count : Nat) (matrix : OverlapMatrix) : List Nat :=
  (List.range count).map fun index =>
    (List.range count).foldl
      (fun total j =>
        if index = j then total
        else match matrixGet matrix index j with
          | some overlaps => total + overlaps.length
          | none => total)
      0

/-- `selectInitialEntryIndex(entries, overlapTotals)` (source lines 227-241):
maximise the overlap total, ties broken by longer word; `bestScore` starts
at `-Infinity`, modelled by `none`. -/
def selectInitialEntryIndex (entries : List Entry) (overlapTotals : List Nat) : Nat :=
  ((List.range entries.length).foldl
    (fun (best : Nat × Option Nat) i =>
      let score := (overlapTotals.get? i).getD 0
      let better :=
        match best.2 with
        | none => true
        | some bs =>
          bs < score ||
            (score = bs &&
              (((entries.get? best.1).map Entry.word).getD []).length
                < (((entries.get? i).map Entry.word).getD []).length)
      if better then (i, some score) else best)
    (0, none)).1

/-- One candidate of `selectNextEntries`. -/
structure Candidate where
  entry : Entry
  index : Nat
  overlapScore : Nat
  potential : Nat
deriving Repr

/-- The sort comparator of `selectNextEntries` (source lines 303-311),
descending on overlap score, then potential, then word length. -/
def candCmp (a b : Candidate) : Int :=
  if b.overlapScore ≠ a.overlapScore then (b.overlapScore : Int) - a.overlapScore
  else if b.potential ≠ a.potential then (b.potential : Int) - a.potential
  else (b.entry.word.length : Int) - a.entry.word.length

/-- Stable insertion used to model the (stable) JS `Array.prototype.sort`:
`candSort` sorts the tail first and then inserts the head, so the head —
the element earliest in input order — must land *before* every candidate
comparing equal to it (all of which came later in the input), which is the
`≤` in the guard.  ES2019 `Array.prototype.sort` is required to be stable,
so full-comparator ties keep their input order. -/
def candInsert (x : Candidate) : List Candidate → List Candidate
| [] => [x]
| y :: ys => if candCmp x y ≤ 0 then x :: y :: ys else y :: candInsert x ys

def candSort : List Candidate → List Candidate
| [] => []
| x :: xs => candInsert x (candSort xs)

/-- `selectNextEntries(entries, used, placements, overlapMatrix, overlapTotals)`
(source lines 281-314): unplaced entries that share a letter with at least
one committed placement, sorted by the comparator above. -/
def selectNextEntries (entries : List Entry) (used : List Nat)
    (placements : List Placement) (overlapMatrix : OverlapMatrix)
    (overlapTotals : List Nat) : List Candidate :=
  candSort <|
    (List.range entries.length).filterMap fun index =>
      if used.contains index then none
      else
        match entries.get? index with
        | none => none
        | some entry =>
          let overlapScore := placements.foldl
            (fun score p => score + ((matrixGet overlapMatrix index p.entryIndex).getD []).length)
            0
          if overlapScore = 0 then none
          else some ⟨entry, index, overlapScore, (overlapTotals.get? index).getD 0⟩

/-- One placement option `{row, col, direction}`. -/
structure PlacementOption where
  row : Int
  col : Int
  direction : Direction
deriving DecidableEq, Repr

/-- `generatePlacementOptions(candidate, placements, overlapMatrix)` (source
lines 316-344), with the `seen`-set deduplication by `(row, col, direction)`. -/
def generatePlacementOptions (candIndex : Nat) (placements : List Placement)
    (overlapMatrix : OverlapMatrix) : List PlacementOption :=
  (placements.foldl
    (fun (acc : List PlacementOption × List PlacementOption) placement =>
      ((matrixGet overlapMatrix candIndex placement.entryIndex).getD []).foldl
        (fun acc ab =>
          let opt : PlacementOption :=
            match placement.direction with
            | .across => ⟨placement.row - ab.1, placement.col + ab.2, .down⟩
            | .down => ⟨placement.row + ab.2, placement.col - ab.1, .across⟩
          if acc.2.contains opt then acc
          else (acc.1 ++ [opt], opt :: acc.2))
        acc)
    ([], [])).1

/-- The mutable state of the backtracking search: board, usage map, the
committed placements and the set of used entry indices. -/
structure SearchSt where
  grid : Grid
  usage : Usage
  placements : List Placement
  used : List Nat
deriving Repr

/-- Result of one search step: success carries the final state, failure the
state after all trial placements were reverted (the threaded board). -/
inductive StepResult
| success (st : SearchSt)
| failure (st : SearchSt)

/-- The inner option loop of `backtrackPlace` (source lines 251-275): try
each legal option, commit, recurse; on recursive failure pop the placement
and revert, keeping the (possibly corrupted) board for the next try. -/
def tryOptions (recur : SearchSt → StepResult) (cand : Candidate) :
    SearchSt → List PlacementOption → StepResult
| st, [] => .failure st
| st, opt :: rest =>
  if canPlace cand.entry.word opt.row opt.col opt.direction st.grid st.usage then
    let res := applyPlacement cand.entry cand.index opt.row opt.col opt.direction st.grid st.usage
    let st' : SearchSt :=
      { grid := res.grid, usage := res.usage,
        placements := st.placements ++ [res.placement],
        used := st.used ++ [cand.index] }
    match recur st' with
    | .success final => .success final
    | .failure stAfter =>
      let (g', u') := revertPlacement stAfter.grid stAfter.usage res.filledCells res.usageUpdates
      tryOptions recur cand
        { grid := g', usage := u',
          placements := stAfter.placements.dropLast,
          used := stAfter.used.erase cand.index }
        rest
  else tryOptions recur cand st rest

/-- The candidate loop of `backtrackPlace` (source lines 249-276). -/
def tryCandidates (recur : SearchSt → StepResult) (overlapMatrix : OverlapMatrix) :
    SearchSt → List Candidate → StepResult
| st, [] => .failure st
| st, cand :: rest =>
  match tryOptions recur cand st (generatePlacementOptions cand.index st.placements overlapMatrix) with
  | .success final => .success final
  | .failure st' => tryCandidates recur overlapMatrix st' rest

/-- `backtrackPlace` (source lines 243-279).  The JS recursion terminates
because every recursive call has one more committed placement; the `fuel`
argument makes that measure explicit and is initialised to `entries.length`,
which the recursion never exhausts. -/
def backtrackPlace (entries : List Entry) (overlapMatrix : OverlapMatrix)
    (overlapTotals : List Nat) : Nat → SearchSt → StepResult
| fuel, st =>
  if st.placements.length = entries.length then .success st
  else
    match fuel with
    | 0 => .failure st
    | fuel' + 1 =>
      tryCandidates (backtrackPlace entries overlapMatrix overlapTotals fuel') overlapMatrix st
        (selectNextEntries entries st.used st.placements overlapMatrix overlapTotals)

def createEmptyGrid (size : Nat) : Grid :=
  List.replicate size (List.replicate size none)

def createUsageGrid (size : Nat) : Usage :=
  List.replicate size (List.replicate size emptyUsageCell)

/-- Accumulator of the bounding-box scan of `trimLayout`. -/
structure TrimAcc where
  minRow : Nat
  maxRow : Nat
  minCol : Nat
  maxCol : Nat
  hasLetters : Bool

/-- The scan of `trimLayout` (source lines 524-540); note the source
initialises `minCol` from `grid.length`, not the row length. -/
def trimScan (grid : Grid) : TrimAcc :=
  (List.range grid.length).foldl
    (fun acc row =>
      (List.range (((grid.get? row).getD []).length)).foldl
        (fun (acc : TrimAcc) (col : Nat) =>
          if (getCell grid row col).isSome then
            { minRow := min acc.minRow row, maxRow := max acc.maxRow row,
              minCol := min acc.minCol col, maxCol := max acc.maxCol col,
              hasLetters := true }
          else acc)
        acc)
    ⟨grid.length - 1, 0, grid.length - 1, 0, false⟩

/-- `trimLayout(grid, placements)` (source lines 523-565). -/
def trimLayout (grid : Grid) (placements : List Placement) : Grid × List Placement :=
  let acc := trimScan grid
  if !acc.hasLetters then (grid, placements)
  else
    let trimmedGrid : Grid :=
      (List.range' acc.minRow (acc.maxRow + 1 - acc.minRow)).map fun row =>
        (List.range' acc.minCol (acc.maxCol + 1 - acc.minCol)).map fun col =>
          getCell grid row col
    let adjustedPlacements := placements.map fun p =>
      { p with row := p.row - (acc.minRow : Int), col := p.col - (acc.minCol : Int) }
    (trimmedGrid, adjustedPlacements)

/-- One clue entry `{number, clue, answerLength}`. -/
structure Clue where
  number : Nat
  clue : String
  answerLength : Nat
deriving DecidableEq, Repr

/-- The result of `assignNumbers`. -/
structure Numbering where
  numbersMap : List (List (Option Nat))
  acrossClues : List Clue
  downClues : List Clue
  placements : List Placement
deriving DecidableEq, Repr

def setNumCell (m : List (List (Option Nat))) (r c : Nat) (v : Option Nat) :
    List (List (Option Nat)) :=
  match m.get? r with
  | some row => m.set r (row.set c v)
  | none => m

/-- Walk state of `assignNumbers`; `assigned` records which placement
(identified by its `entryIndex`, the field that distinguishes the JS
objects) adopted which number. -/
structure NumAcc where
  counter : Nat
  numbersMap : List (List (Option Nat))
  acrossClues : List Clue
  downClues : List Clue
  assigned : List (Nat × Nat)

/-- `assignNumbers(grid, placements)` (source lines 567-624).  The JS
`placementMap` is a `Map` keyed by `direction + ":" + row + ":" + col` where
later `set`s shadow earlier ones; prepending to an association list and
taking the first hit models exactly that. -/
def assignNumbers (grid : Grid) (placements : List Placement) : Numbering :=
  let rows := grid.length
  let cols := (((grid.get? 0).map List.length)).getD 0
  let placementMap : List ((Direction × Int × Int) × Placement) :=
    placements.foldl (fun m p => ((p.direction, p.row, p.col), { p with number := none }) :: m) []
  let pmGet : Direction → Int → Int → Option Placement := fun d r c =>
    (placementMap.find? (fun e => e.1 = (d, r, c))).map (·.2)
  let final : NumAcc :=
    (List.range rows).foldl
      (fun (acc : NumAcc) (row : Nat) =>
        (List.range cols).foldl
          (fun (acc : NumAcc) (col : Nat) =>
            if getCell grid row col = none then acc
            else
              let startAcross :=
                (pmGet .across row col).isSome &&
                  (col = 0 || getCell grid row ((col : Int) - 1) = none)
              let startDown :=
                (pmGet .down row col).isSome &&
                  (row = 0 || getCell grid ((row : Int) - 1) col = none)
              if !startAcross && !startDown then acc
              else
                let number := acc.counter
                let acc1 : NumAcc :=
                  { acc with
                    counter := acc.counter + 1
                    numbersMap := setNumCell acc.numbersMap row col (some number) }
                let acc2 : NumAcc :=
                  if startAcross then
                    match pmGet .across row col with
                    | some p =>
                      { acc1 with
                        acrossClues := acc1.acrossClues ++ [⟨number, p.clue, p.word.length⟩]
                        assigned := acc1.assigned ++ [(p.entryIndex, number)] }
                    | none => acc1
                  else acc1
                if startDown then
                  match pmGet .down row col with
                  | some p =>
                    { acc2 with
                      downClues := acc2.downClues ++ [⟨number, p.clue, p.word.length⟩]
                      assigned := acc2.assigned ++ [(p.entryIndex, number)] }
                  | none => acc2
                else acc2)
          acc)
      ⟨1, List.replicate rows (List.replicate cols none), [], [], []⟩
  { numbersMap := final.numbersMap,
    acrossClues := final.acrossClues,
    downClues := final.downClues,
    placements := placements.map fun p =>
      { p with number := ((final.assigned.find? (fun a => a.1 = p.entryIndex)).map (·.2)) } }

/-- The layout bundle returned by `attemptLayout` (source lines 180-186). -/
structure Layout where
  grid : Grid
  placements : List Placement
  numbersMap : List (List (Option Nat))
  acrossClues : List Clue
  downClues : List Clue
deriving DecidableEq, Repr

/-- `countIntersections(placements)` (source lines 413-433): the JS cell-key
`Map` of visit counts is an association list with in-place replacement. -/
def countIntersections (placements : List Placement) : Nat :=
  let cellCounts : List ((Int × Int) × Nat) :=
    placements.foldl
      (fun m p =>
        (List.range p.word.length).foldl
          (fun (m : List ((Int × Int) × Nat)) i =>
            let key := (p.row + deltaRow p.direction * i, p.col + deltaCol p.direction * i)
            if (m.find? (fun e => e.1 = key)).isSome then
              m.map (fun e => if e.1 = key then (e.1, e.2 + 1) else e)
            else m ++ [(key, 1)])
          m)
      []
  cellCounts.foldl (fun n e => if 1 < e.2 then n + 1 else n) 0

/-- `scoreLayout(layout)` (source lines 392-411); JS floating point is
modelled by exact rationals (`0.02 = 2/100`), which matches on all the
comparisons the control flow depends on. -/
def scoreLayout (layout : Layout) : ℚ :=
  let rows := layout.grid.length
  let cols := (((layout.grid.get? 0).map List.length)).getD 0
  if rows = 0 ∨ cols = 0 then 0
  else
    let filled :=
      (List.range rows).foldl
        (fun n row =>
          (List.range cols).foldl
            (fun n col => if (getCell layout.grid row col).isSome then n + 1 else n)
            n)
        0
    (filled : ℚ) / ((rows : ℚ) * cols) + (countIntersections layout.placements : ℚ) * (2 / 100)

/-- `attemptLayout(entries, gridSize)` (source lines 142-187). -/
def attemptLayout (entries : List Entry) (gridSize : Nat) : Option Layout :=
  let grid := createEmptyGrid gridSize
  let usage := createUsageGrid gridSize
  let overlapMatrix := buildOverlapMatrix entries
  let overlapTotals := calculateOverlapTotals entries.length overlapMatrix
  let initialIndex := selectInitialEntryIndex entries overlapTotals
  match entries.get? initialIndex with
  | none => none
  | some initialEntry =>
    if initialEntry.word.isEmpty then none
    else
      let centerRow : Int := (gridSize : Int) / 2
      let centerCol : Int := max 0 (((gridSize : Int) - initialEntry.word.length).fdiv 2)
      if canPlace initialEntry.word centerRow centerCol .across grid usage then
        let res := applyPlacement initialEntry initialIndex centerRow centerCol .across grid usage
        let st : SearchSt := ⟨res.grid, res.usage, [res.placement], [initialIndex]⟩
        match backtrackPlace entries overlapMatrix overlapTotals entries.length st with
        | .failure _ => none
        | .success final =>
          let (trimmedGrid, trimmedPlacements) := trimLayout final.grid final.placements
          let numbering := assignNumbers trimmedGrid trimmedPlacements
          some
            { grid := trimmedGrid, placements := numbering.placements,
              numbersMap := numbering.numbersMap,
              acrossClues := numbering.acrossClues, downClues := numbering.downClues }
      else none

inductive BuildError
| unplaceable
| noCompactLayout
deriving DecidableEq, Repr

def maxAttempts : Nat := 80

/-- `score > bestScore` with `bestScore` starting at `-Infinity` (`none`). -/
def scoreBeats (score : ℚ) (best : Option (Layout × ℚ)) : Bool :=
  match best with
  | none => true
  | some b => decide (b.2 < score)

/-- The attempt loop of `buildCrossword` (source lines 111-129), returning
the best layout and the success count. -/
def buildLoop (entries : List Entry) (gridSize : Nat) :
    Nat → Option (Layout × ℚ) → Nat → Option Layout × Nat
| 0, best, successCount => (best.map (·.1), successCount)
| n + 1, best, successCount =>
  match attemptLayout entries gridSize with
  | none => buildLoop entries gridSize n best successCount
  | some layout =>
    let successCount' := successCount + 1
    let score := scoreLayout layout
    if scoreBeats score best then
      if (17 : ℚ) / 20 ≤ score then (some layout, successCount')
      else buildLoop entries gridSize n (some (layout, score)) successCount'
    else buildLoop entries gridSize n best successCount'

/-- `buildCrossword(entries, gridSize)` (source lines 105-140). -/
def buildCrossword (entries : List Entry) (gridSize : Nat) : Except BuildError Layout :=
  match buildLoop entries gridSize maxAttempts none 0 with
  | (some best, _) => .ok best
  | (none, successCount) =>
    if successCount = 0 then .error .unplaceable else .error .noCompactLayout

def listSwap {α} (l : List α) (a b : Nat) : List α :=
  match l.get? a, l.get? b with
  | some x, some y => (l.set a y).set b x
  | _, _ => l

/-- The Fisher-Yates loop of `shuffle` (source lines 91-97); the stream
`rng` supplies one draw per iteration, `draw % (i + 1)` standing for
`Math.floor(Math.random() * (i + 1))` (every value in `[0, i]` is
realizable either way). -/
def shuffleGo {α} : List α → Nat → List Nat → List α
| arr, 0, _ => arr
| arr, i + 1, rng => shuffleGo (listSwap arr (i + 1) ((rng.headD 0) % (i + 2))) i rng.tail

def shuffle {α} (array : List α) (rng : List Nat) : List α :=
  shuffleGo array (array.length - 1) rng

/-- `pickRandomEntries(entries, count)` (source lines 86-89). -/
def pickRandomEntries (entries : List Entry) (count : Nat) (rng : List Nat) : List Entry :=
  (shuffle entries rng).take count

/-- `Math.ceil(Math.sqrt(n))`: the least `s` with `n ≤ s * s` (exact for
the word-length totals involved; written as a bounded search so that it
computes by reduction). -/
def ceilSqrt (n : Nat) : Nat :=
  ((List.range (n + 2)).find? (fun s => n ≤ s * s)).getD 0

/-- `determineGridSize(words)` (source lines 99-103). -/
def determineGridSize (words : List Entry) : Nat :=
  let totalLetters := words.foldl (fun sum entry => sum + entry.word.length) 0
  max MIN_GRID_SIZE (min MAX_GRID_SIZE (ceilSqrt (totalLetters * 2)))

/-- The options bag of `createPuzzle`.  The source destructures only
`onProgress` (side-effect-only reporting, not modelled); the spec's optional
`seed` is carried here so that theorems can speak about it: the body of
`createPuzzle` never reads it. -/
structure PuzzleOptions where
  seed : Option Nat
deriving DecidableEq, Repr

inductive PuzzleError
| noEntries
| countBelowMinimum
| countExceedsAvailable
| unplaceable
| noCompactLayout
deriving DecidableEq, Repr

/-- The bundle returned by `createPuzzle` (source lines 78-83). -/
structure PuzzleResult where
  grid : Grid
  placements : List Placement
  numbersMap : List (List (Option Nat))
  acrossClues : List Clue
  downClues : List Clue
  requestedCount : Nat
  rows : Nat
  cols : Nat
deriving DecidableEq, Repr

def mkPuzzleResult (layout : Layout) (wordsLength : Nat) : PuzzleResult :=
  { grid := layout.grid, placements := layout.placements,
    numbersMap := layout.numbersMap,
    acrossClues := layout.acrossClues, downClues := layout.downClues,
    requestedCount := wordsLength, rows := layout.grid.length,
    cols := (((layout.grid.get? 0).map List.length)).getD 0 }

def liftBuildError : BuildError → PuzzleError
| .unplaceable => .unplaceable
| .noCompactLayout => .noCompactLayout

/-- `createPuzzle(entries, requestedCount, options)` (source lines 55-84),
with the ambient `Math.random()` draws passed as `rng`. -/
def createPuzzle (entries : List Entry) (requestedCount : Nat)
    (options : PuzzleOptions) (rng : List Nat) : Except PuzzleError PuzzleResult :=
  if entries.length = 0 then .error .noEntries
  else if requestedCount < MIN_WORDS then .error .countBelowMinimum
  else if entries.length < requestedCount then .error .countExceedsAvailable
  else
    let words := pickRandomEntries entries requestedCount rng
    let gridSize := determineGridSize words
    match buildCrossword words gridSize with
    | .error e => .error (liftBuildError e)
    | .ok layout => .ok (mkPuzzleResult layout words.length)

/-- A decoded JSON-ish JavaScript value, the input domain of
`normalizeEntries`.  Numbers are modelled as integers (the engine never
does arithmetic on them; a fractional number would only change the result
of `toString`, which is immediately filtered to A-Z anyway). -/
inductive JsVal
| vStr (s : String)
| vNum (n : Int)
| vBool (b : Bool)
| vNull
| vArr (elems : List JsVal)
| vObj (fields : List (String × JsVal))

/-- `typeof item === "object" && item !== null`: objects and arrays pass,
`null` is excluded by the explicit null check. -/
def isJsObject : JsVal → Bool
| .vObj _ => true
| .vArr _ => true
| _ => false

/-- `Array.isArray(value)`. -/
def isJsArray : JsVal → Bool
| .vArr _ => true
| _ => false

/-- Property read `item[key]`: only plain objects carry the looked-up keys;
`none` models JS `undefined`. -/
def getField : JsVal → String → Option JsVal
| .vObj fields, key => (fields.find? (fun f => f.1 = key)).map (·.2)
| _, _ => none

/-- The `??` chain of the source (lines 18-31): the first key whose value is
neither absent (`undefined`) nor `null`, defaulting to `""`. -/
def coalesceFields : JsVal → List String → JsVal
| _, [] => .vStr ""
| item, key :: rest =>
  match getField item key with
  | some .vNull => coalesceFields item rest
  | some v => v
  | none => coalesceFields item rest

/-- JS `value.toString()` on our value domain, with an explicit recursion
bound so that the definition is structural (and hence computes by
reduction).  An array prints as its elements joined with commas
(`Array.prototype.toString`), nullish elements becoming empty strings.
Numbers print in digit form; JS switches to exponent notation (with an
`e`) only for magnitudes at or beyond 1e21, which changes nothing for the
normalizer theorems (the A-Z filter and the length/emptiness guards behave
the same on either spelling). -/
def jsToStringGo : Nat → JsVal → String
| _, .vStr s => s
| _, .vNum n => toString n
| _, .vBool b => cond b "true" "false"
| _, .vNull => "null"
| _, .vObj _ => "[object Object]"
| 0, .vArr _ => ""
| fuel + 1, .vArr elems =>
  String.intercalate "," (elems.map fun e =>
    match e with
    | .vNull => ""
    | v => jsToStringGo fuel v)

mutual
/-- Size of a value, dominating its array-nesting depth. -/
def jsValSize : JsVal → Nat
| .vArr elems => 1 + jsValListSize elems
| _ => 1
def jsValListSize : List JsVal → Nat
| [] => 0
| v :: rest => jsValSize v + jsValListSize rest
end

/-- JS `value.toString()`; the size bound dominates the array-nesting
depth, so the fuel of `jsToStringGo` never runs out. -/
def jsToString (v : JsVal) : String := jsToStringGo (jsValSize v) v

/-- `String.prototype.toUpperCase`, accurate on the ASCII range (non-ASCII
characters never survive the A-Z filter that follows it). -/
def jsToUpperCase (s : String) : String :=
  ⟨s.data.map Char.toUpper⟩

/-- `.replace(/[^A-Z]/g, "")` as a character filter. -/
def stripNonAZ (s : String) : List Char :=
  s.data.filter (fun ch => decide ('A' ≤ ch) && decide (ch ≤ 'Z'))

/-- ASCII whitespace recognised by `String.prototype.trim`.  The real trim
also strips `\x0b`, `\x0c`, NBSP and the Unicode space classes; modelling
fewer whitespace characters under-approximates trimming, so the trimmedness
and non-emptiness theorems proved here claim no more than the program does
(JS trims strictly more). -/
def isJsWhitespace (ch : Char) : Bool :=
  ch = ' ' || ch = '\t' || ch = '\n' || ch = '\r'

/-- `String.prototype.trim`. -/
def jsTrim (s : String) : List Char :=
  ((s.data.dropWhile isJsWhitespace).reverse.dropWhile isJsWhitespace).reverse

inductive NormError
| invalidInputShape
| noValidEntries
deriving DecidableEq, Repr

/-- The per-item mapper of `normalizeEntries` (source lines 13-45); `none`
is the JS `null` that the trailing `.filter(Boolean)` drops. -/
def normalizeItem (item : JsVal) (index : Nat) : Option Entry :=
  if isJsObject item then
    let word := coalesceFields item ["word", "answer", "solution", "text", "entry"]
    let clue := coalesceFields item ["clue", "question", "prompt", "hint", "definition"]
    let cleanWord := stripNonAZ (jsToUpperCase (jsToString word))
    let cleanClue := jsTrim (jsToString clue)
    if cleanWord.length < 2 ∨ cleanClue.length = 0 then none
    else some ⟨cleanWord, ⟨cleanClue⟩, index⟩
  else none

/-- `normalizeEntries(raw)` (source lines 7-53). -/
def normalizeEntries (raw : JsVal) : Except NormError (List Entry) :=
  match raw with
  | .vArr items =>
    let entries := (items.enum.map (fun p => normalizeItem p.2 p.1)).reduceOption
    if entries.length = 0 then .error .noValidEntries else .ok entries
  | _ => .error .invalidInputShape

/-- The cells traversed by a placement. -/
def placementCells (p : Placement) : List (Int × Int) :=
  (List.range p.word.length).map fun i =>
    (p.row + deltaRow p.direction * i, p.col + deltaCol p.direction * i)

/-- Modelled from the spec's layout invariant 3: two cells are end-to-end
covered when one and the same placement of the given direction traverses
both. -/
def coveredBySamePlacement (placements : List Placement) (d : Direction)
    (a b : Int × Int) : Bool :=
  placements.any fun p =>
    p.direction == d && (placementCells p).contains a && (placementCells p).contains b

/-- Modelled from the spec's layout invariant 3 ("no two adjacent letter
cells lie end-to-end along a direction unless they are both part of the
same placement in that direction"), as a checker over a layout. -/
def specEndToEndOk (grid : Grid) (placements : List Placement) : Bool :=
  (List.range grid.length).all fun r =>
    (List.range (((grid.get? r).getD []).length)).all fun c =>
      !(getCell grid r c).isSome ||
        ((!(getCell grid r ((c : Int) + 1)).isSome ||
            coveredBySamePlacement placements .across (r, c) (r, (c : Int) + 1)) &&
          (!(getCell grid ((r : Int) + 1) c).isSome ||
            coveredBySamePlacement placements .down (r, c) ((r : Int) + 1, c)))

/-- The board states the backtracking search reaches: it starts from the
empty working board and mutates it only by `applyPlacement` of options that
passed `canPlace`, and by `revertPlacement` of the most recent commit.  A
clean revert restores the previous state of this family (and the corrupting
reverts are exactly what claim C3 is about), so every (grid, usage) pair
the search holds right before trying a new option is generated by legal
commits alone. -/
inductive SearchReachable (size : Nat) : Grid → Usage → Prop
| init : SearchReachable size (createEmptyGrid size) (createUsageGrid size)
| step (grid : Grid) (usage : Usage) (entry : Entry) (entryIndex : Nat)
    (row col : Int) (direction : Direction) :
    SearchReachable size grid usage →
    canPlace entry.word row col direction grid usage = true →
    SearchReachable size
      (applyPlacement entry entryIndex row col direction grid usage).grid
      (applyPlacement entry entryIndex row col direction grid usage).usage

/-- Pointwise board/usage agreement: a cell holds a letter exactly when one
of its usage flags is set.  This is the invariant of the search boards. -/
def consistentAt (grid : Grid) (usage : Usage) (r c : Int) : Prop :=
  (getCell grid r c).isSome = ((getUsage usage r c).across || (getUsage usage r c).down)

/-- Generic matrix read with a default: the common shape of `getCell` and
`getUsage` (definitionally equal to both); used by the proofs. -/
def matGet {α} (dflt : α) (m : List (List α)) (r c : Int) : α :=
  if 0 ≤ r ∧ 0 ≤ c then (((m.get? r.toNat).getD []).get? c.toNat).getD dflt
  else dflt

/-- Generic matrix write: the common shape of `setCell` and `setUsage`. -/
def matSet {α} (m : List (List α)) (r c : Int) (v : α) : List (List α) :=
  if 0 ≤ r ∧ 0 ≤ c then
    match m.get? r.toNat with
    | some row => m.set r.toNat (row.set c.toNat v)
    | none => m
  else m

/-- `(r, c)` addresses an actual element of the matrix. -/
def matInBounds {α} (m : List (List α)) (r c : Int) : Prop :=
  0 ≤ r ∧ 0 ≤ c ∧ ∃ row, m.get? r.toNat = some row ∧ c.toNat < row.length

/-- Replace one flag of a usage cell. -/
def UsageCell.withFlag (u : UsageCell) (d : Direction) (b : Bool) : UsageCell :=
  match d with
  | .across => { u with across := b }
  | .down => { u with down := b }

/-- Two matrices with the same row count and the same row lengths. -/
def sameShape {α} (m m' : List (List α)) : Prop :=
  m.length = m'.length ∧
    ∀ i : Nat, (m.get? i).map List.length = (m'.get? i).map List.length

/-- The grid has exactly `size` rows of length `size`. -/
def SquareBoard (grid : List (List α)) (size : Nat) : Prop :=
  grid.length = size ∧ ∀ row ∈ grid, row.length = size

/-- A five-entry input on which the search succeeds with no backtracking
and produces both an end-to-end fusion and an unnumbered placement (the
failing input of claims C2 and C4).  With the identity shuffle the layout
is the 4 by 4 trimmed grid rows "CDB.", "CDDA", ".A..", ".A..": its first
row spells the uninvited word "CDB" and the down placement "DAA" starts
under the letter of another word, so it is never numbered. -/
def fusionEntries : List Entry :=
  [⟨"BD".data, "c0", 0⟩, ⟨"DAA".data, "c1", 1⟩, ⟨"DB".data, "c2", 2⟩,
    ⟨"CC".data, "c3", 3⟩, ⟨"CDDA".data, "c4", 4⟩]

/-- Draws realising the identity shuffle for five entries (Fisher-Yates
picks j = i at every step). -/
def rngIdentity5 : List Nat := [4, 3, 2, 1]

/-- A different stream of draws (j = 0 at every step), realising a
non-identity shuffle for five entries. -/
def rngZero5 : List Nat := [0, 0, 0, 0]

/-- The five-entry input of claim C5: under the two streams above both
searches succeed without backtracking and produce different layouts. -/
def seedEntries : List Entry :=
  [⟨"BBB".data, "c0", 0⟩, ⟨"BDCA".data, "c1", 1⟩, ⟨"DBB".data, "c2", 2⟩,
    ⟨"ACC".data, "c3", 3⟩, ⟨"ACAC".data, "c4", 4⟩]

/-- The C5 input as reordered by the draws `rngZero5` (pinned as a literal
so that the evaluation theorems work on constant lists). -/
def seedEntriesZero : List Entry :=
  [⟨"BDCA".data, "c1", 1⟩, ⟨"DBB".data, "c2", 2⟩, ⟨"ACC".data, "c3", 3⟩,
    ⟨"ACAC".data, "c4", 4⟩, ⟨"BBB".data, "c0", 0⟩]

/-- The first committed word of the C3 counterexample: "EDDB" placed across
at (1, 1) on the empty 5 by 5 working board. -/
def c3EntryA : Entry := ⟨"EDDB".data, "x0", 0⟩

/-- The second committed word of the C3 counterexample: "EA" placed down at
(1, 1), crossing "EDDB" at its E.  Re-applying this very placement is still
legal for `canPlace` (every covered cell already holds the right letter),
and reverting that re-application corrupts the board. -/
def c3EntryB : Entry := ⟨"EA".data, "x1", 1⟩

/-! ## Theorems -/

/-- If the per-letter check fails at any position of the word, the whole
letter loop of `canPlace` reports failure. -/
theorem canPlaceLoop_false_of_step (w : List Char) (r c : Int) (d : Direction)
    (grid : Grid) (usage : Usage) (size : Nat) (k : Nat) (hk : k < w.length)
    (hstep : canPlaceStep (w.get ⟨k, hk⟩) (r + deltaRow d * k) (c + deltaCol d * k)
      d grid usage size = false) :
    canPlaceLoop w r c d grid usage size = false := by
  induction w generalizing r c k with
  | nil => exact absurd hk (Nat.not_lt_zero k)
  | cons ch rest ih =>
    cases k with
    | zero =>
      simp only [Nat.cast_zero, mul_zero, add_zero] at hstep
      simp only [canPlaceLoop, List.get] at hstep ⊢
      rw [hstep]
      rfl
    | succ k =>
      simp only [canPlaceLoop]
      have hk' : k < rest.length := Nat.lt_of_succ_lt_succ hk
      have harg : canPlaceStep (rest.get ⟨k, hk'⟩)
          ((r + deltaRow d) + deltaRow d * k) ((c + deltaCol d) + deltaCol d * k)
          d grid usage size = false := by
        have h1 : (r + deltaRow d) + deltaRow d * k = r + deltaRow d * ((k : Int) + 1) := by ring
        have h2 : (c + deltaCol d) + deltaCol d * k = c + deltaCol d * ((k : Int) + 1) := by ring
        rw [h1, h2]
        simpa [Nat.cast_succ] using hstep
      rw [ih (r + deltaRow d) (c + deltaCol d) k hk' harg]
      simp

/-- If the letter loop fails, `canPlace` returns false (whatever the three
leading guards decide). -/
theorem canPlace_false_of_loop_false (word : List Char) (row col : Int)
    (d : Direction) (grid : Grid) (usage : Usage)
    (hloop : canPlaceLoop word row col d grid usage grid.length = false) :
    canPlace word row col d grid usage = false := by
  simp only [canPlace]
  split
  · rfl
  · split
    · rfl
    · split
      · rfl
      · exact hloop

/-- C10: `canPlace` is total over arbitrary integer start coordinates
(negative ones included, as emitted by `generatePlacementOptions`), every
cell access in its embedding is bounds-guarded, and it returns false
whenever any cell of the word's span falls outside the board. -/
theorem canPlace_false_of_span_outside (word : List Char) (row col : Int)
    (d : Direction) (grid : Grid) (usage : Usage) (k : Nat) (hk : k < word.length)
    (hout : isInsideGrid (row + deltaRow d * k) (col + deltaCol d * k) grid.length = false) :
    canPlace word row col d grid usage = false := by
  have hlen : 1 ≤ word.length := Nat.one_le_of_lt (Nat.lt_of_le_of_lt (Nat.zero_le k) hk)
  simp only [isInsideGrid, Bool.and_eq_false_iff, decide_eq_false_iff_not, not_le, not_lt] at hout
  simp only [canPlace]
  rw [if_pos]
  cases d with
  | across =>
    simp only [deltaRow, deltaCol, zero_mul, one_mul, add_zero] at hout ⊢
    have hkk : (k : Int) ≤ (word.length : Int) - 1 := by
      have := Int.ofNat_le.mpr (Nat.le_pred_of_lt hk)
      omega
    rcases hout with ((h | h) | h) | h <;> omega
  | down =>
    simp only [deltaRow, deltaCol, zero_mul, one_mul, add_zero] at hout ⊢
    have hkk : (k : Int) ≤ (word.length : Int) - 1 := by
      have := Int.ofNat_le.mpr (Nat.le_pred_of_lt hk)
      omega
    rcases hout with ((h | h) | h) | h <;> omega

/-- C1: at a position `k` whose target cell is empty, `canPlace` returns
false when a perpendicular neighbour (above/below for across, left/right
for down) holds a letter whose usage flag for the perpendicular direction
is false; and the per-position check passes when every such occupied
neighbour has that flag set. -/
theorem canPlace_perpendicular_usage_rule (word : List Char) (row col : Int)
    (grid : Grid) (usage : Usage) (k : Nat) (hk : k < word.length) :
    (getCell grid row (col + (k : Int)) = none →
      ((isInsideGrid (row - 1) (col + (k : Int)) grid.length = true ∧
          (getCell grid (row - 1) (col + (k : Int))).isSome = true ∧
          (getUsage usage (row - 1) (col + (k : Int))).down = false) ∨
        (isInsideGrid (row + 1) (col + (k : Int)) grid.length = true ∧
          (getCell grid (row + 1) (col + (k : Int))).isSome = true ∧
          (getUsage usage (row + 1) (col + (k : Int))).down = false)) →
      canPlace word row col .across grid usage = false) ∧
    (getCell grid row (col + (k : Int)) = none →
      (isInsideGrid (row - 1) (col + (k : Int)) grid.length = true →
        (getCell grid (row - 1) (col + (k : Int))).isSome = true →
        (getUsage usage (row - 1) (col + (k : Int))).down = true) →
      (isInsideGrid (row + 1) (col + (k : Int)) grid.length = true →
        (getCell grid (row + 1) (col + (k : Int))).isSome = true →
        (getUsage usage (row + 1) (col + (k : Int))).down = true) →
      canPlaceStep (word.get ⟨k, hk⟩) row (col + (k : Int)) .across grid usage grid.length
        = true) ∧
    (getCell grid (row + (k : Int)) col = none →
      ((isInsideGrid (row + (k : Int)) (col - 1) grid.length = true ∧
          (getCell grid (row + (k : Int)) (col - 1)).isSome = true ∧
          (getUsage usage (row + (k : Int)) (col - 1)).across = false) ∨
        (isInsideGrid (row + (k : Int)) (col + 1) grid.length = true ∧
          (getCell grid (row + (k : Int)) (col + 1)).isSome = true ∧
          (getUsage usage (row + (k : Int)) (col + 1)).across = false)) →
      canPlace word row col .down grid usage = false) ∧
    (getCell grid (row + (k : Int)) col = none →
      (isInsideGrid (row + (k : Int)) (col - 1) grid.length = true →
        (getCell grid (row + (k : Int)) (col - 1)).isSome = true →
        (getUsage usage (row + (k : Int)) (col - 1)).across = true) →
      (isInsideGrid (row + (k : Int)) (col + 1) grid.length = true →
        (getCell grid (row + (k : Int)) (col + 1)).isSome = true →
        (getUsage usage (row + (k : Int)) (col + 1)).across = true) →
      canPlaceStep (word.get ⟨k, hk⟩) (row + (k : Int)) col .down grid usage grid.length
        = true) := by
  refine ⟨?_, ?_, ?_, ?_⟩
  · intro h0 hbad
    refine canPlace_false_of_loop_false _ _ _ _ _ _
      (canPlaceLoop_false_of_step _ _ _ _ _ _ _ k hk ?_)
    simp only [deltaRow, deltaCol, zero_mul, one_mul, add_zero]
    simp only [canPlaceStep, h0]
    rcases hbad with ⟨hin, hsome, hflag⟩ | ⟨hin, hsome, hflag⟩ <;>
      simp [hin, hsome, hflag]
  · intro h0 habove hbelow
    simp only [canPlaceStep, h0]
    cases hin1 : isInsideGrid (row - 1) (col + (k : Int)) grid.length <;>
      cases hsm1 : (getCell grid (row - 1) (col + (k : Int))).isSome <;>
      cases hin2 : isInsideGrid (row + 1) (col + (k : Int)) grid.length <;>
      cases hsm2 : (getCell grid (row + 1) (col + (k : Int))).isSome <;>
      simp_all
  · intro h0 hbad
    refine canPlace_false_of_loop_false _ _ _ _ _ _
      (canPlaceLoop_false_of_step _ _ _ _ _ _ _ k hk ?_)
    simp only [deltaRow, deltaCol, zero_mul, one_mul, add_zero]
    simp only [canPlaceStep, h0]
    rcases hbad with ⟨hin, hsome, hflag⟩ | ⟨hin, hsome, hflag⟩ <;>
      simp [hin, hsome, hflag]
  · intro h0 hleft hright
    simp only [canPlaceStep, h0]
    cases hin1 : isInsideGrid (row + (k : Int)) (col - 1) grid.length <;>
      cases hsm1 : (getCell grid (row + (k : Int)) (col - 1)).isSome <;>
      cases hin2 : isInsideGrid (row + (k : Int)) (col + 1) grid.length <;>
      cases hsm2 : (getCell grid (row + (k : Int)) (col + 1)).isSome <;>
      simp_all

/-- Witness for C1: a 3 by 3 board with a letter above position 1 of an
across word; the word is rejected while the letter's `down` flag is false
and the per-position check passes once it is true. -/
theorem canPlace_perpendicular_usage_rule_witness :
    canPlace ['A', 'B'] 1 0 .across
      [[none, some 'C', none], [none, none, none], [none, none, none]]
      [[⟨false, false⟩, ⟨false, false⟩, ⟨false, false⟩],
        [⟨false, false⟩, ⟨false, false⟩, ⟨false, false⟩],
        [⟨false, false⟩, ⟨false, false⟩, ⟨false, false⟩]] = false ∧
    canPlaceStep (['A', 'B'].get ⟨1, by decide⟩) 1 (0 + ((1 : Nat) : Int)) .across
      [[none, some 'C', none], [none, none, none], [none, none, none]]
      [[⟨false, false⟩, ⟨false, true⟩, ⟨false, false⟩],
        [⟨false, false⟩, ⟨false, false⟩, ⟨false, false⟩],
        [⟨false, false⟩, ⟨false, false⟩, ⟨false, false⟩]]
      3 = true := by
  constructor
  · exact (canPlace_perpendicular_usage_rule ['A', 'B'] 1 0
      [[none, some 'C', none], [none, none, none], [none, none, none]]
      [[⟨false, false⟩, ⟨false, false⟩, ⟨false, false⟩],
        [⟨false, false⟩, ⟨false, false⟩, ⟨false, false⟩],
        [⟨false, false⟩, ⟨false, false⟩, ⟨false, false⟩]] 1 (by decide)).1
      (by decide) (Or.inl (by decide))
  · exact (canPlace_perpendicular_usage_rule ['A', 'B'] 1 0
      [[none, some 'C', none], [none, none, none], [none, none, none]]
      [[⟨false, false⟩, ⟨false, true⟩, ⟨false, false⟩],
        [⟨false, false⟩, ⟨false, false⟩, ⟨false, false⟩],
        [⟨false, false⟩, ⟨false, false⟩, ⟨false, false⟩]] 1 (by decide)).2.1
      (by decide) (by decide) (by decide)

/-- The first element surviving `dropWhile p` does not satisfy `p`. -/
theorem head?_dropWhile_false {α} (p : α → Bool) (l : List α) (x : α)
    (h : (l.dropWhile p).head? = some x) : p x = false := by
  induction l with
  | nil => simp [List.dropWhile] at h
  | cons a t ih =>
    cases hpa : p a with
    | true =>
      rw [List.dropWhile_cons, if_pos (by simp [hpa])] at h
      exact ih h
    | false =>
      rw [List.dropWhile_cons, if_neg (by simp [hpa])] at h
      simp only [List.head?_cons, Option.some.injEq] at h
      rw [← h]
      exact hpa

/-- The head of a trimmed string is not whitespace. -/
theorem jsTrim_head?_not_ws (s : String) (ch : Char)
    (h : (jsTrim s).head? = some ch) : isJsWhitespace ch = false := by
  simp only [jsTrim] at h
  rw [List.head?_reverse] at h
  obtain ⟨t, ht⟩ :=
    List.dropWhile_suffix (l := (s.data.dropWhile isJsWhitespace).reverse) isJsWhitespace
  have hne : ((s.data.dropWhile isJsWhitespace).reverse.dropWhile isJsWhitespace) ≠ [] := by
    intro hnil
    rw [hnil] at h
    simp at h
  have h2 : (t ++ (s.data.dropWhile isJsWhitespace).reverse.dropWhile isJsWhitespace).getLast?
      = some ch := by
    rw [List.getLast?_append_of_ne_nil _ hne]
    exact h
  rw [ht, List.getLast?_reverse] at h2
  exact head?_dropWhile_false _ _ _ h2

/-- The last character of a trimmed string is not whitespace. -/
theorem jsTrim_getLast?_not_ws (s : String) (ch : Char)
    (h : (jsTrim s).getLast? = some ch) : isJsWhitespace ch = false := by
  simp only [jsTrim] at h
  rw [List.getLast?_reverse] at h
  exact head?_dropWhile_false _ _ _ h

/-- Everything `normalizeItem` lets through is well-formed: word of length
at least 2 made of A-Z only, and a non-empty clue with no whitespace at
either end. -/
theorem normalizeItem_some_props (item : JsVal) (index : Nat) (e : Entry)
    (h : normalizeItem item index = some e) :
    2 ≤ e.word.length ∧ (∀ ch ∈ e.word, 'A' ≤ ch ∧ ch ≤ 'Z') ∧
      e.clue.data ≠ [] ∧
      (∀ ch, e.clue.data.head? = some ch → isJsWhitespace ch = false) ∧
      (∀ ch, e.clue.data.getLast? = some ch → isJsWhitespace ch = false) := by
  simp only [normalizeItem] at h
  split at h
  · split at h
    · exact absurd h (by simp)
    · rename_i hguard
      push_neg at hguard
      obtain ⟨hw, hc⟩ := hguard
      have hrec := Option.some.inj h
      have hword : e.word = stripNonAZ (jsToUpperCase (jsToString
          (coalesceFields item ["word", "answer", "solution", "text", "entry"]))) := by
        rw [← hrec]
      have hclue : e.clue.data = jsTrim (jsToString
          (coalesceFields item ["clue", "question", "prompt", "hint", "definition"])) := by
        rw [← hrec]
      refine ⟨?_, ?_, ?_, ?_, ?_⟩
      · rw [hword]
        exact hw
      · intro ch hch
        rw [hword] at hch
        simp only [stripNonAZ] at hch
        have := List.of_mem_filter hch
        simp only [Bool.and_eq_true, decide_eq_true_eq] at this
        exact this
      · rw [hclue]
        intro hnil
        rw [hnil] at hc
        simp at hc
      · intro ch hch
        rw [hclue] at hch
        exact jsTrim_head?_not_ws _ _ hch
      · intro ch hch
        rw [hclue] at hch
        exact jsTrim_getLast?_not_ws _ _ hch
  · exact absurd h (by simp)

/-- Every entry of a successful `normalizeEntries` run comes from
`normalizeItem` on some raw item. -/
theorem normalizeEntries_mem (raw : JsVal) (entries : List Entry)
    (h : normalizeEntries raw = .ok entries) (e : Entry) (he : e ∈ entries) :
    ∃ item index, normalizeItem item index = some e := by
  cases raw with
  | vArr items =>
    simp only [normalizeEntries] at h
    split at h
    · exact absurd h (by simp)
    · obtain rfl : _ = entries := Except.ok.inj h
      rw [List.reduceOption_mem_iff] at he
      obtain ⟨p, _, hp⟩ := List.mem_map.mp he
      exact ⟨p.2, p.1, hp⟩
  | vStr s => exact absurd h (by simp [normalizeEntries])
  | vNum n => exact absurd h (by simp [normalizeEntries])
  | vBool b => exact absurd h (by simp [normalizeEntries])
  | vNull => exact absurd h (by simp [normalizeEntries])
  | vObj fields => exact absurd h (by simp [normalizeEntries])

/-- C7: on every input on which `normalizeEntries` succeeds, every returned
word matches `[A-Z]{2,}` (only uppercase A-Z, length at least 2) and every
returned clue is non-empty with no leading or trailing whitespace. -/
theorem normalize_output_wellformed (raw : JsVal) (entries : List Entry)
    (h : normalizeEntries raw = .ok entries) :
    ∀ e ∈ entries,
      (2 ≤ e.word.length ∧ ∀ ch ∈ e.word, 'A' ≤ ch ∧ ch ≤ 'Z') ∧
      e.clue.data ≠ [] ∧
      (∀ ch, e.clue.data.head? = some ch → isJsWhitespace ch = false) ∧
      (∀ ch, e.clue.data.getLast? = some ch → isJsWhitespace ch = false) := by
  intro e he
  obtain ⟨item, index, hitem⟩ := normalizeEntries_mem raw entries h e he
  have := normalizeItem_some_props item index e hitem
  exact ⟨⟨this.1, this.2.1⟩, this.2.2⟩

/-- Witness for C7: the sample `{" co-op! ", " Shared venture "}` entry. -/
theorem normalize_output_wellformed_witness :
    (2 ≤ (Entry.mk ['C', 'O', 'O', 'P'] "Shared venture" 0).word.length ∧
      ∀ ch ∈ (Entry.mk ['C', 'O', 'O', 'P'] "Shared venture" 0).word, 'A' ≤ ch ∧ ch ≤ 'Z') ∧
    (Entry.mk ['C', 'O', 'O', 'P'] "Shared venture" 0).clue.data ≠ [] ∧
    (∀ ch, (Entry.mk ['C', 'O', 'O', 'P'] "Shared venture" 0).clue.data.head? = some ch →
      isJsWhitespace ch = false) ∧
    (∀ ch, (Entry.mk ['C', 'O', 'O', 'P'] "Shared venture" 0).clue.data.getLast? = some ch →
      isJsWhitespace ch = false) :=
  normalize_output_wellformed
    (.vArr [.vObj [("word", .vStr " co-op! "), ("clue", .vStr " Shared venture ")]])
    [Entry.mk ['C', 'O', 'O', 'P'] "Shared venture" 0]
    (by decide)
    (Entry.mk ['C', 'O', 'O', 'P'] "Shared venture" 0)
    (by simp)

/-- Counterexample for C8: `normalizeEntries` gladly returns a 13-letter
word; no `max_word_len` bound is enforced anywhere in the source. -/
theorem normalize_returns_13_letter_word :
    normalizeEntries
        (.vArr [.vObj [("word", .vStr "ABCDEFGHIJKLM"), ("clue", .vStr "x")]])
      = .ok [Entry.mk "ABCDEFGHIJKLM".data "x" 0] ∧
    12 < ("ABCDEFGHIJKLM".data).length := by
  constructor
  · decide
  · decide

/-- C8 (amended): every returned word has length at least 2; the source
enforces no upper bound on word length. -/
theorem normalize_word_length_lower_bound (raw : JsVal) (entries : List Entry)
    (h : normalizeEntries raw = .ok entries) :
    ∀ e ∈ entries, 2 ≤ e.word.length := by
  intro e he
  obtain ⟨item, index, hitem⟩ := normalizeEntries_mem raw entries h e he
  exact (normalizeItem_some_props item index e hitem).1

/-- Witness for the amended C8. -/
theorem normalize_word_length_lower_bound_witness :
    2 ≤ (Entry.mk ['A', 'B'] "x" 0).word.length :=
  normalize_word_length_lower_bound
    (.vArr [.vObj [("word", .vStr "AB"), ("clue", .vStr "x")]])
    [Entry.mk ['A', 'B'] "x" 0]
    (by decide)
    (Entry.mk ['A', 'B'] "x" 0)
    (by simp)

/-- Counterexample for C9: a sequence containing a non-object element (the
string `"oops"`) does not fail with `InvalidInputShape`; the element is
silently dropped and normalization succeeds. -/
theorem normalize_drops_non_object_element :
    normalizeEntries
        (.vArr [.vStr "oops", .vObj [("word", .vStr "AB"), ("clue", .vStr "x")]])
      = .ok [Entry.mk ['A', 'B'] "x" 1] := by
  decide

/-- C9 (amended): `normalizeEntries` fails with `InvalidInputShape` exactly
when the input is not an array at all; non-object elements of an array are
silently dropped. -/
theorem normalize_invalidInputShape_iff_not_array (raw : JsVal) :
    normalizeEntries raw = .error .invalidInputShape ↔ isJsArray raw = false := by
  cases raw with
  | vArr items =>
    simp only [normalizeEntries, isJsArray]
    constructor
    · intro h
      split at h
      · exact absurd h (by simp)
      · exact absurd h (by simp)
    · intro h
      exact absurd h (by simp)
  | vStr s => simp [normalizeEntries, isJsArray]
  | vNum n => simp [normalizeEntries, isJsArray]
  | vBool b => simp [normalizeEntries, isJsArray]
  | vNull => simp [normalizeEntries, isJsArray]
  | vObj fields => simp [normalizeEntries, isJsArray]

/-- Witness for the amended C9. -/
theorem normalize_invalidInputShape_iff_not_array_witness :
    normalizeEntries (.vStr "invalid") = .error .invalidInputShape :=
  (normalize_invalidInputShape_iff_not_array (.vStr "invalid")).mpr (by decide)

/-- Witness for C10: a word started above the board is rejected. -/
theorem canPlace_false_of_span_outside_witness :
    canPlace ['A', 'B'] (-1) 0 .down (createEmptyGrid 2) (createUsageGrid 2) = false :=
  canPlace_false_of_span_outside ['A', 'B'] (-1) 0 .down
    (createEmptyGrid 2) (createUsageGrid 2) 0 (by decide) (by decide)

/-- Once a best layout is held, the attempt loop always returns one. -/
theorem buildLoop_isSome_of_some (entries : List Entry) (gridSize : Nat)
    (b : Layout × ℚ) : ∀ (n cnt : Nat),
    ((buildLoop entries gridSize n (some b) cnt).1).isSome = true := by
  intro n
  induction n generalizing b with
  | zero => intro cnt; simp [buildLoop]
  | succ n ih =>
    intro cnt
    cases hatt : attemptLayout entries gridSize with
    | none =>
      simp only [buildLoop, hatt]
      exact ih b cnt
    | some layout =>
      simp only [buildLoop, hatt]
      by_cases hbeats : scoreBeats (scoreLayout layout) (some b) = true
      · rw [if_pos hbeats]
        by_cases hhigh : (17 : ℚ) / 20 ≤ scoreLayout layout
        · rw [if_pos hhigh]
          simp
        · rw [if_neg hhigh]
          exact ih _ _
      · rw [if_neg hbeats]
        exact ih b _

/-- If the loop returns no layout, no attempt succeeded: the best stayed
`none` and the success counter kept its input value. -/
theorem buildLoop_none (entries : List Entry) (gridSize : Nat) :
    ∀ (n : Nat) (best : Option (Layout × ℚ)) (cnt : Nat),
    (buildLoop entries gridSize n best cnt).1 = none →
    best = none ∧ (buildLoop entries gridSize n best cnt).2 = cnt := by
  intro n
  induction n with
  | zero =>
    intro best cnt h
    simp only [buildLoop] at h
    refine ⟨Option.map_eq_none.mp h, ?_⟩
    simp [buildLoop]
  | succ n ih =>
    intro best cnt h
    cases hatt : attemptLayout entries gridSize with
    | none =>
      simp only [buildLoop, hatt] at h ⊢
      exact ih best cnt h
    | some layout =>
      simp only [buildLoop, hatt] at h ⊢
      by_cases hbeats : scoreBeats (scoreLayout layout) best = true
      · rw [if_pos hbeats] at h
        by_cases hhigh : (17 : ℚ) / 20 ≤ scoreLayout layout
        · rw [if_pos hhigh] at h
          simp at h
        · rw [if_neg hhigh] at h
          have := buildLoop_isSome_of_some entries gridSize
            (layout, scoreLayout layout) n (cnt + 1)
          rw [h] at this
          simp at this
      · cases hbest : best with
        | none => exact absurd (by simp [hbest, scoreBeats]) hbeats
        | some b =>
          rw [hbest] at h
          rw [if_neg (by rw [← hbest]; exact hbeats)] at h
          have := buildLoop_isSome_of_some entries gridSize b n (cnt + 1)
          rw [h] at this
          simp at this

/-- With a deterministic `attemptLayout` outcome `some l`, a loop that
already holds `(l, score l)` keeps returning `l`. -/
theorem buildLoop_keep (entries : List Entry) (gridSize : Nat) (l : Layout)
    (hatt : attemptLayout entries gridSize = some l) :
    ∀ (n cnt : Nat),
    (buildLoop entries gridSize n (some (l, scoreLayout l)) cnt).1 = some l := by
  intro n
  induction n with
  | zero => intro cnt; simp [buildLoop]
  | succ n ih =>
    intro cnt
    simp only [buildLoop, hatt]
    have hbeats : scoreBeats (scoreLayout l) (some (l, scoreLayout l)) = false := by
      simp [scoreBeats]
    rw [if_neg (by simp [hbeats])]
    exact ih _

/-- A loop of at least one iteration started with no best layout returns
the attempt's layout. -/
theorem buildLoop_first_success (entries : List Entry) (gridSize : Nat)
    (l : Layout) (hatt : attemptLayout entries gridSize = some l) (n cnt : Nat) :
    (buildLoop entries gridSize (n + 1) none cnt).1 = some l := by
  simp only [buildLoop, hatt]
  rw [if_pos (by simp [scoreBeats])]
  by_cases hhigh : (17 : ℚ) / 20 ≤ scoreLayout l
  · rw [if_pos hhigh]
  · rw [if_neg hhigh]
    exact buildLoop_keep entries gridSize l hatt n (cnt + 1)

/-- If one attempt succeeds they all do (the loop re-runs the same
deterministic computation), and `buildCrossword` returns that layout. -/
theorem buildCrossword_ok_of_attempt (entries : List Entry) (gridSize : Nat)
    (l : Layout) (hatt : attemptLayout entries gridSize = some l) :
    buildCrossword entries gridSize = .ok l := by
  have h80 : (buildLoop entries gridSize maxAttempts none 0).1 = some l :=
    buildLoop_first_success entries gridSize l hatt 79 0
  unfold buildCrossword
  have hpair : buildLoop entries gridSize maxAttempts none 0
      = (some l, (buildLoop entries gridSize maxAttempts none 0).2) := by
    rw [← h80]
  rw [hpair]

/-- C6: the `NoCompactLayout` branch of `buildCrossword` is dead code: the
error is never returned, and whenever at least one attempt succeeds (with
the deterministic `attemptLayout`, one success means all 80 attempts
succeed identically) the best layout is returned. -/
theorem buildCrossword_never_noCompactLayout (entries : List Entry) (gridSize : Nat) :
    buildCrossword entries gridSize ≠ .error .noCompactLayout ∧
    (∀ l, attemptLayout entries gridSize = some l →
      ∃ l', buildCrossword entries gridSize = .ok l') := by
  constructor
  · intro hcontra
    unfold buildCrossword at hcontra
    cases hloop : buildLoop entries gridSize maxAttempts none 0 with
    | mk bestOpt cnt =>
      rw [hloop] at hcontra
      cases bestOpt with
      | some best => simp at hcontra
      | none =>
        have := buildLoop_none entries gridSize maxAttempts none 0 (by rw [hloop])
        have hcnt : cnt = 0 := by
          have h2 := this.2
          rw [hloop] at h2
          exact h2
        rw [hcnt] at hcontra
        simp at hcontra
  · intro l hatt
    exact ⟨l, buildCrossword_ok_of_attempt entries gridSize l hatt⟩

/-- Witness for C6: a one-entry list on a 10 by 10 board succeeds, so
`buildCrossword` returns a layout. -/
theorem buildCrossword_never_noCompactLayout_witness :
    ∃ l', buildCrossword [Entry.mk ['A', 'B'] "x" 0] 10 = .ok l' :=
  (buildCrossword_never_noCompactLayout [Entry.mk ['A', 'B'] "x" 0] 10).2 _ rfl

/-- When the validations pass and the layout attempt on the picked words
succeeds, `createPuzzle` returns that layout's bundle. -/
theorem createPuzzle_ok_of_attempt (entries : List Entry) (requestedCount : Nat)
    (options : PuzzleOptions) (rng : List Nat) (l : Layout)
    (h0 : entries.length ≠ 0) (h1 : ¬ requestedCount < MIN_WORDS)
    (h2 : ¬ entries.length < requestedCount)
    (hatt : attemptLayout (pickRandomEntries entries requestedCount rng)
      (determineGridSize (pickRandomEntries entries requestedCount rng)) = some l) :
    createPuzzle entries requestedCount options rng
      = .ok (mkPuzzleResult l (pickRandomEntries entries requestedCount rng).length) := by
  simp only [createPuzzle]
  rw [if_neg h0, if_neg h1, if_neg h2,
    buildCrossword_ok_of_attempt _ _ l hatt]

/-- The layout attempt on the fusion input succeeds (evaluated once and
shared by the C2 and C4 theorems). -/
theorem fusionAttempt_isSome : (attemptLayout fusionEntries 10).isSome = true := by
  decide

/-- The identity shuffle leaves the fusion input unchanged, and its grid
size computes to 10. -/
theorem fusionPick_eq : pickRandomEntries fusionEntries 5 rngIdentity5 = fusionEntries ∧
    determineGridSize fusionEntries = 10 := by
  constructor
  · decide
  · decide

/-- C2 (evaluation of the code at the failing input): `createPuzzle` on
`fusionEntries` with the identity shuffle succeeds, yet the returned
layout violates the claimed invariant: the trimmed grid contains adjacent
collinear letter cells that no single placement of that direction covers
(its first row spells the uninvited word "CDB", and column 1 spells
"DDAA" even though no down placement covers all of it). -/
theorem createPuzzle_result_violates_end_to_end :
    ∃ res, createPuzzle fusionEntries 5 ⟨none⟩ rngIdentity5 = .ok res ∧
      specEndToEndOk res.grid res.placements = false := by
  have hatt : attemptLayout (pickRandomEntries fusionEntries 5 rngIdentity5)
      (determineGridSize (pickRandomEntries fusionEntries 5 rngIdentity5))
      = some ((attemptLayout fusionEntries 10).get fusionAttempt_isSome) := by
    rw [fusionPick_eq.1, fusionPick_eq.2]
    exact (Option.some_get fusionAttempt_isSome).symm
  refine ⟨_, createPuzzle_ok_of_attempt fusionEntries 5 ⟨none⟩ rngIdentity5 _
    (by decide) (by decide) (by decide) hatt, ?_⟩
  decide

/-- C4 (evaluation of the code at the failing input): the same successful
run returns placements whose `number` is still null — their start cells
were never numbered (the cell above the down word "DAA" was filled by a
later placement), and their clues appear in no clue list. -/
theorem createPuzzle_result_has_unnumbered_placement :
    ∃ res, createPuzzle fusionEntries 5 ⟨none⟩ rngIdentity5 = .ok res ∧
      (res.placements.any fun p => p.number.isNone) = true := by
  have hatt : attemptLayout (pickRandomEntries fusionEntries 5 rngIdentity5)
      (determineGridSize (pickRandomEntries fusionEntries 5 rngIdentity5))
      = some ((attemptLayout fusionEntries 10).get fusionAttempt_isSome) := by
    rw [fusionPick_eq.1, fusionPick_eq.2]
    exact (Option.some_get fusionAttempt_isSome).symm
  refine ⟨_, createPuzzle_ok_of_attempt fusionEntries 5 ⟨none⟩ rngIdentity5 _
    (by decide) (by decide) (by decide) hatt, ?_⟩
  decide

/-- The two shuffles of the C5 input and their grid sizes. -/
theorem seedPick_eq :
    pickRandomEntries seedEntries 5 rngIdentity5 = seedEntries ∧
    pickRandomEntries seedEntries 5 rngZero5 = seedEntriesZero ∧
    determineGridSize seedEntries = 10 ∧
    determineGridSize seedEntriesZero = 10 := by
  refine ⟨by decide, by decide, by decide, by decide⟩

theorem seedAttempt1_isSome : (attemptLayout seedEntries 10).isSome = true := by
  decide

theorem seedAttempt2_isSome : (attemptLayout seedEntriesZero 10).isSome = true := by
  decide

/-- Counterexample for C5: two runs with the same entries and the same
`seed` option but different ambient random draws produce different
placements lists, so the seed does not make `createPuzzle` deterministic. -/
theorem createPuzzle_same_seed_different_placements :
    ∃ r1 r2, createPuzzle seedEntries 5 ⟨some 0⟩ rngIdentity5 = .ok r1 ∧
      createPuzzle seedEntries 5 ⟨some 0⟩ rngZero5 = .ok r2 ∧
      r1.placements ≠ r2.placements := by
  have hatt1 : attemptLayout (pickRandomEntries seedEntries 5 rngIdentity5)
      (determineGridSize (pickRandomEntries seedEntries 5 rngIdentity5))
      = some ((attemptLayout seedEntries 10).get seedAttempt1_isSome) := by
    rw [seedPick_eq.1, seedPick_eq.2.2.1]
    exact (Option.some_get seedAttempt1_isSome).symm
  have hatt2 : attemptLayout (pickRandomEntries seedEntries 5 rngZero5)
      (determineGridSize (pickRandomEntries seedEntries 5 rngZero5))
      = some ((attemptLayout seedEntriesZero 10).get seedAttempt2_isSome) := by
    rw [seedPick_eq.2.1, seedPick_eq.2.2.2]
    exact (Option.some_get seedAttempt2_isSome).symm
  refine ⟨_, _, createPuzzle_ok_of_attempt seedEntries 5 ⟨some 0⟩ rngIdentity5 _
    (by decide) (by decide) (by decide) hatt1,
    createPuzzle_ok_of_attempt seedEntries 5 ⟨some 0⟩ rngZero5 _
    (by decide) (by decide) (by decide) hatt2, ?_⟩
  decide

/-- C5 (amended): `createPuzzle` accepts an options bag but never reads a
seed from it — the source destructures only `onProgress` — so its result is
a function of the entries, the requested count and the ambient
`Math.random()` draws alone: changing the seed changes nothing, and only
fixing the ambient draws makes two runs byte-identical. -/
theorem createPuzzle_ignores_seed (entries : List Entry) (requestedCount : Nat)
    (s1 s2 : Option Nat) (rng : List Nat) :
    createPuzzle entries requestedCount ⟨s1⟩ rng
      = createPuzzle entries requestedCount ⟨s2⟩ rng := rfl

/-! ### Claim C3: apply/revert round trip -/

/-! ### C3 support: generic matrix lemmas -/

theorem getCell_matGet (g : Grid) (r c : Int) : getCell g r c = matGet none g r c := rfl

theorem setCell_matSet (g : Grid) (r c : Int) (v : Cell) :
    setCell g r c v = matSet g r c v := by
  unfold setCell matSet
  split
  · split
    next row heq => rw [heq]
    next heq => rw [heq]
  · rfl

theorem getUsage_matGet (u : Usage) (r c : Int) :
    getUsage u r c = matGet emptyUsageCell u r c := rfl

theorem setUsage_matSet (u : Usage) (r c : Int) (v : UsageCell) :
    setUsage u r c v = matSet u r c v := by
  unfold setUsage matSet
  split
  · split
    next row heq => rw [heq]
    next heq => rw [heq]
  · rfl

theorem setUsageFlag_matSet (u : Usage) (r c : Int) (d : Direction) (b : Bool) :
    setUsageFlag u r c d b
      = matSet u r c ((matGet emptyUsageCell u r c).withFlag d b) := by
  cases d with
  | across =>
    show setUsage u r c { getUsage u r c with across := b } = _
    rw [setUsage_matSet, getUsage_matGet]
    rfl
  | down =>
    show setUsage u r c { getUsage u r c with down := b } = _
    rw [setUsage_matSet, getUsage_matGet]
    rfl

theorem matSet_length {α} (m : List (List α)) (r c : Int) (v : α) :
    (matSet m r c v).length = m.length := by
  simp only [matSet]
  split
  · split
    · simp
    · rfl
  · rfl

theorem matSet_rowLen {α} (m : List (List α)) (r c : Int) (v : α) (i : Nat) :
    ((matSet m r c v).get? i).map List.length = (m.get? i).map List.length := by
  simp only [matSet]
  split
  · cases hrow : m.get? r.toNat with
    | none => rfl
    | some row =>
      by_cases hi : r.toNat = i
      · subst hi
        rw [List.get?_set_eq_of_lt _ (List.get?_eq_some.mp hrow).1, hrow]
        simp
      · rw [List.get?_set_ne _ _ hi]
  · rfl

theorem matInBounds_matSet {α} (m : List (List α)) (r c : Int) (v : α) (x y : Int) :
    matInBounds (matSet m r c v) x y ↔ matInBounds m x y := by
  unfold matInBounds
  constructor
  · rintro ⟨hx, hy, row, hrow, hlen⟩
    refine ⟨hx, hy, ?_⟩
    have hthis := matSet_rowLen m r c v x.toNat
    rw [hrow] at hthis
    cases hrow' : m.get? x.toNat with
    | none =>
      rw [hrow'] at hthis
      exact absurd hthis (by simp)
    | some row' =>
      refine ⟨row', rfl, ?_⟩
      rw [hrow'] at hthis
      have h2 : row.length = row'.length := by simpa using hthis
      omega
  · rintro ⟨hx, hy, row, hrow, hlen⟩
    refine ⟨hx, hy, ?_⟩
    have hthis := matSet_rowLen m r c v x.toNat
    rw [hrow] at hthis
    cases hrow' : (matSet m r c v).get? x.toNat with
    | none =>
      rw [hrow'] at hthis
      exact absurd hthis (by simp)
    | some row' =>
      refine ⟨row', rfl, ?_⟩
      rw [hrow'] at hthis
      have h2 : row'.length = row.length := by simpa using hthis
      omega

theorem matGet_matSet_self {α} (d : α) (m : List (List α)) (r c : Int) (v : α)
    (h : matInBounds m r c) : matGet d (matSet m r c v) r c = v := by
  obtain ⟨hr, hc, row, hrow, hlen⟩ := h
  have hcond : 0 ≤ r ∧ 0 ≤ c := ⟨hr, hc⟩
  simp only [matGet, matSet, if_pos hcond, hrow]
  rw [List.get?_set_eq_of_lt _ (List.get?_eq_some.mp hrow).1]
  simp only [Option.getD_some]
  rw [List.get?_set_eq_of_lt _ hlen]
  simp

theorem matGet_matSet_other {α} (d : α) (m : List (List α)) (r c : Int) (v : α)
    (x y : Int) (hne : x ≠ r ∨ y ≠ c) :
    matGet d (matSet m r c v) x y = matGet d m x y := by
  simp only [matGet, matSet]
  by_cases hrc : 0 ≤ r ∧ 0 ≤ c
  · rw [if_pos hrc]
    by_cases hxy : 0 ≤ x ∧ 0 ≤ y
    · rw [if_pos hxy, if_pos hxy]
      cases hrow : m.get? r.toNat with
      | none => rfl
      | some row =>
        by_cases hxr : x.toNat = r.toNat
        · have hx_eq : x = r := by omega
          have hy_ne : y ≠ c := by
            rcases hne with h | h
            · exact absurd hx_eq h
            · exact h
          have hyc : y.toNat ≠ c.toNat := by omega
          rw [hxr, List.get?_set_eq_of_lt _ (List.get?_eq_some.mp hrow).1, hrow]
          simp only [Option.getD_some]
          rw [List.get?_set_ne _ _ (by omega : c.toNat ≠ y.toNat)]
        · rw [List.get?_set_ne _ _ (by omega : r.toNat ≠ x.toNat)]
    · rw [if_neg hxy, if_neg hxy]
  · rw [if_neg hrc]

/-- Matrix extensionality: same shape and same reads everywhere. -/
theorem matEq_of_pointwise {α} (d : α) (m m' : List (List α))
    (hlen : m.length = m'.length)
    (hrows : ∀ i : Nat, (m.get? i).map List.length = (m'.get? i).map List.length)
    (hget : ∀ x y : Nat, matGet d m (x : Int) (y : Int) = matGet d m' (x : Int) (y : Int)) :
    m = m' := by
  apply List.ext
  intro i
  cases hrow : m.get? i with
  | none =>
    have := hrows i
    rw [hrow] at this
    cases hrow' : m'.get? i with
    | none => rfl
    | some row' => rw [hrow'] at this; simp at this
  | some row =>
    have hr := hrows i
    rw [hrow] at hr
    cases hrow' : m'.get? i with
    | none => rw [hrow'] at hr; simp at hr
    | some row' =>
      rw [hrow'] at hr
      have hrlen : row.length = row'.length := by simpa using hr
      congr 1
      apply List.ext
      intro j
      cases hj : Nat.decLt j row.length with
      | isTrue hlt =>
        have hlt' : j < row'.length := by omega
        have hg := hget i j
        have hcond : (0 : Int) ≤ (i : Int) ∧ (0 : Int) ≤ (j : Int) :=
          ⟨Int.ofNat_nonneg i, Int.ofNat_nonneg j⟩
        simp only [matGet, if_pos hcond] at hg
        rw [Int.toNat_ofNat, Int.toNat_ofNat, hrow, hrow'] at hg
        simp only [Option.getD_some] at hg
        cases hrj : row.get? j with
        | none => exact absurd (List.get?_eq_none.mp hrj) (by omega)
        | some a =>
          cases hrj' : row'.get? j with
          | none => exact absurd (List.get?_eq_none.mp hrj') (by omega)
          | some b =>
            rw [hrj, hrj'] at hg
            simp only [Option.getD_some] at hg
            rw [hg]
      | isFalse hge =>
        rw [List.get?_eq_none.mpr (by omega), List.get?_eq_none.mpr (by omega)]

/-! ### C3 support: shape preservation and usage cell algebra -/

theorem sameShape_refl {α} (m : List (List α)) : sameShape m m := ⟨rfl, fun _ => rfl⟩

theorem sameShape_trans {α} {a b c : List (List α)}
    (h1 : sameShape a b) (h2 : sameShape b c) : sameShape a c :=
  ⟨h1.1.trans h2.1, fun i => (h1.2 i).trans (h2.2 i)⟩

theorem sameShape_matSet {α} (m : List (List α)) (r c : Int) (v : α) :
    sameShape (matSet m r c v) m :=
  ⟨matSet_length m r c v, fun i => matSet_rowLen m r c v i⟩

theorem matInBounds_of_sameShape {α} {m m' : List (List α)}
    (hs : sameShape m m') (x y : Int) (h : matInBounds m' x y) :
    matInBounds m x y := by
  obtain ⟨hx, hy, row, hrow, hlen⟩ := h
  refine ⟨hx, hy, ?_⟩
  have := hs.2 x.toNat
  rw [hrow] at this
  cases hrow' : m.get? x.toNat with
  | none => rw [hrow'] at this; exact absurd this (by simp)
  | some row' =>
    refine ⟨row', rfl, ?_⟩
    rw [hrow'] at this
    have h2 : row'.length = row.length := by simpa using this
    omega

theorem UsageCell.withFlag_same (u : UsageCell) (d : Direction) (b b' : Bool) :
    (u.withFlag d b).withFlag d b' = u.withFlag d b' := by
  cases d <;> rfl

theorem UsageCell.withFlag_self (u : UsageCell) (d : Direction)
    (h : u.flag d = false) : u.withFlag d false = u := by
  cases d <;> cases u <;> simp_all [UsageCell.withFlag, UsageCell.flag]

/-! ### C3 support: pointwise behaviour of the revert folds -/

/-- The usage-update fold leaves untouched every cell not listed. -/
theorem updFold_off (ups : List UsageUpdate) (s : Grid × Usage) (x y : Int)
    (h : ∀ u ∈ ups, ¬(u.row = x ∧ u.col = y)) :
    matGet none (ups.foldl revertUpdStep s).1 x y = matGet none s.1 x y ∧
      matGet emptyUsageCell (ups.foldl revertUpdStep s).2 x y
        = matGet emptyUsageCell s.2 x y := by
  induction ups generalizing s with
  | nil => exact ⟨rfl, rfl⟩
  | cons u rest ih =>
    have hu := h u (by simp)
    have hne : x ≠ u.row ∨ y ≠ u.col := by
      by_cases hr : u.row = x
      · right
        intro hc
        exact hu ⟨hr, hc.symm⟩
      · left
        exact fun hx => hr hx.symm
    have hstep_g : matGet none (revertUpdStep s u).1 x y = matGet none s.1 x y := by
      simp only [revertUpdStep]
      split
      · rw [setCell_matSet, matGet_matSet_other _ _ _ _ _ _ _ hne]
      · rfl
    have hstep_u : matGet emptyUsageCell (revertUpdStep s u).2 x y
        = matGet emptyUsageCell s.2 x y := by
      simp only [revertUpdStep]
      rw [setUsageFlag_matSet, matGet_matSet_other _ _ _ _ _ _ _ hne]
    have := ih (revertUpdStep s u) (fun v hv => h v (by simp [hv]))
    rw [List.foldl_cons]
    exact ⟨this.1.trans hstep_g, this.2.trans hstep_u⟩

theorem updFold_shape (ups : List UsageUpdate) (s : Grid × Usage) :
    sameShape (ups.foldl revertUpdStep s).1 s.1 ∧
      sameShape (ups.foldl revertUpdStep s).2 s.2 := by
  induction ups generalizing s with
  | nil => exact ⟨sameShape_refl _, sameShape_refl _⟩
  | cons u rest ih =>
    rw [List.foldl_cons]
    have hstep_g : sameShape (revertUpdStep s u).1 s.1 := by
      simp only [revertUpdStep]
      split
      · rw [setCell_matSet]
        exact sameShape_matSet _ _ _ _
      · exact sameShape_refl _
    have hstep_u : sameShape (revertUpdStep s u).2 s.2 := by
      simp only [revertUpdStep]
      rw [setUsageFlag_matSet]
      exact sameShape_matSet _ _ _ _
    have := ih (revertUpdStep s u)
    exact ⟨sameShape_trans this.1 hstep_g, sameShape_trans this.2 hstep_u⟩

/-- A single revert step leaves other cells untouched. -/
theorem revertUpdStep_off (s : Grid × Usage) (u : UsageUpdate) (x y : Int)
    (hne : x ≠ u.row ∨ y ≠ u.col) :
    matGet none (revertUpdStep s u).1 x y = matGet none s.1 x y ∧
      matGet emptyUsageCell (revertUpdStep s u).2 x y
        = matGet emptyUsageCell s.2 x y := by
  constructor
  · simp only [revertUpdStep]
    split
    · rw [setCell_matSet, matGet_matSet_other _ _ _ _ _ _ _ hne]
    · rfl
  · simp only [revertUpdStep]
    rw [setUsageFlag_matSet, matGet_matSet_other _ _ _ _ _ _ _ hne]

/-- A single revert step at the cell itself: the key flag is cleared, and
the letter survives exactly when another flag is still set. -/
theorem revertUpdStep_on (s : Grid × Usage) (x y : Int) (key' : Direction)
    (hgb : matInBounds s.1 x y) (hub : matInBounds s.2 x y) :
    matGet emptyUsageCell (revertUpdStep s ⟨x, y, key'⟩).2 x y
      = (matGet emptyUsageCell s.2 x y).withFlag key' false ∧
    matGet none (revertUpdStep s ⟨x, y, key'⟩).1 x y
      = (if (((matGet emptyUsageCell s.2 x y).withFlag key' false).across
            || ((matGet emptyUsageCell s.2 x y).withFlag key' false).down) = true
          then matGet none s.1 x y else none) := by
  have hu2 : (revertUpdStep s ⟨x, y, key'⟩).2
      = matSet s.2 x y ((matGet emptyUsageCell s.2 x y).withFlag key' false) := by
    simp only [revertUpdStep]
    rw [setUsageFlag_matSet]
  have husg : matGet emptyUsageCell (revertUpdStep s ⟨x, y, key'⟩).2 x y
      = (matGet emptyUsageCell s.2 x y).withFlag key' false := by
    rw [hu2, matGet_matSet_self _ _ _ _ _ hub]
  refine ⟨husg, ?_⟩
  have hcell : getUsage (setUsageFlag s.2 x y key' false) x y
      = (matGet emptyUsageCell s.2 x y).withFlag key' false := by
    rw [getUsage_matGet, setUsageFlag_matSet, matGet_matSet_self _ _ _ _ _ hub]
  simp only [revertUpdStep, hcell]
  by_cases hflags : (((matGet emptyUsageCell s.2 x y).withFlag key' false).across
      || ((matGet emptyUsageCell s.2 x y).withFlag key' false).down) = true
  · have hc : (!((matGet emptyUsageCell s.2 x y).withFlag key' false).across
        && !((matGet emptyUsageCell s.2 x y).withFlag key' false).down) = false := by
      rcases (Bool.or_eq_true _ _).mp hflags with h | h <;> simp [h]
    rw [if_pos hflags, if_neg (by simp [hc])]
  · have hff : ((matGet emptyUsageCell s.2 x y).withFlag key' false).across = false ∧
        ((matGet emptyUsageCell s.2 x y).withFlag key' false).down = false := by
      simp only [Bool.or_eq_true, not_or, Bool.not_eq_true] at hflags
      exact hflags
    have hc : (!((matGet emptyUsageCell s.2 x y).withFlag key' false).across
        && !((matGet emptyUsageCell s.2 x y).withFlag key' false).down) = true := by
      simp [hff.1, hff.2]
    rw [if_neg hflags, if_pos hc, setCell_matSet, matGet_matSet_self _ _ _ _ _ hgb]

/-- The usage-update fold at a listed cell (all of whose updates carry the
flag `key'`): the flag ends cleared, and the letter survives exactly when
the other flag is still set. -/
theorem updFold_on (ups : List UsageUpdate) (s : Grid × Usage) (x y : Int)
    (key' : Direction)
    (hgb : matInBounds s.1 x y) (hub : matInBounds s.2 x y)
    (hmem : (⟨x, y, key'⟩ : UsageUpdate) ∈ ups)
    (hkey : ∀ u ∈ ups, u.row = x → u.col = y → u.key = key') :
    matGet emptyUsageCell (ups.foldl revertUpdStep s).2 x y
      = (matGet emptyUsageCell s.2 x y).withFlag key' false ∧
    matGet none (ups.foldl revertUpdStep s).1 x y
      = (if (((matGet emptyUsageCell s.2 x y).withFlag key' false).across
            || ((matGet emptyUsageCell s.2 x y).withFlag key' false).down) = true
          then matGet none s.1 x y else none) := by
  induction ups generalizing s with
  | nil => exact absurd hmem (by simp)
  | cons u rest ih =>
    rw [List.foldl_cons]
    by_cases hcell : u.row = x ∧ u.col = y
    · have hk : u.key = key' := hkey u (by simp) hcell.1 hcell.2
      have hu_eq : u = ⟨x, y, key'⟩ := by
        cases u
        simp_all
      subst hu_eq
      have hstep := revertUpdStep_on s x y key' hgb hub
      have hgb' : matInBounds (revertUpdStep s ⟨x, y, key'⟩).1 x y := by
        refine matInBounds_of_sameShape ?_ x y hgb
        simp only [revertUpdStep]
        split
        · rw [setCell_matSet]
          exact sameShape_matSet _ _ _ _
        · exact sameShape_refl _
      have hub' : matInBounds (revertUpdStep s ⟨x, y, key'⟩).2 x y := by
        refine matInBounds_of_sameShape ?_ x y hub
        simp only [revertUpdStep]
        rw [setUsageFlag_matSet]
        exact sameShape_matSet _ _ _ _
      by_cases hm2 : (⟨x, y, key'⟩ : UsageUpdate) ∈ rest
      · have hih := ih (revertUpdStep s ⟨x, y, key'⟩) hgb' hub' hm2
          (fun v hv => hkey v (by simp [hv]))
        rw [hstep.1, UsageCell.withFlag_same] at hih
        refine ⟨hih.1, ?_⟩
        rw [hih.2, hstep.2]
        by_cases hflags : (((matGet emptyUsageCell s.2 x y).withFlag key' false).across
            || ((matGet emptyUsageCell s.2 x y).withFlag key' false).down) = true
        · rw [if_pos hflags, if_pos hflags]
        · rw [if_neg hflags, if_neg hflags]
      · have hoff : ∀ v ∈ rest, ¬(v.row = x ∧ v.col = y) := by
          intro v hv hvc
          have : v.key = key' := hkey v (by simp [hv]) hvc.1 hvc.2
          have : v = ⟨x, y, key'⟩ := by
            cases v
            simp_all
          exact hm2 (this ▸ hv)
        have hob := updFold_off rest (revertUpdStep s ⟨x, y, key'⟩) x y hoff
        exact ⟨hob.2.trans hstep.1, hob.1.trans hstep.2⟩
    · have hne : x ≠ u.row ∨ y ≠ u.col := by
        by_cases hr : u.row = x
        · right
          intro hc
          exact hcell ⟨hr, hc.symm⟩
        · left
          exact fun hx => hr hx.symm
      have hmem' : (⟨x, y, key'⟩ : UsageUpdate) ∈ rest := by
        rcases List.mem_cons.mp hmem with h | h
        · exact absurd (by rw [← h]) (fun hh : u = (⟨x, y, key'⟩ : UsageUpdate) =>
            hcell (by rw [hh]; exact ⟨rfl, rfl⟩))
        · exact h
      have hstep := revertUpdStep_off s u x y hne
      have hgb' : matInBounds (revertUpdStep s u).1 x y := by
        refine matInBounds_of_sameShape ?_ x y hgb
        simp only [revertUpdStep]
        split
        · rw [setCell_matSet]
          exact sameShape_matSet _ _ _ _
        · exact sameShape_refl _
      have hub' : matInBounds (revertUpdStep s u).2 x y := by
        refine matInBounds_of_sameShape ?_ x y hub
        simp only [revertUpdStep]
        rw [setUsageFlag_matSet]
        exact sameShape_matSet _ _ _ _
      have hih := ih (revertUpdStep s u) hgb' hub' hmem'
        (fun v hv => hkey v (by simp [hv]))
      rw [hstep.1, hstep.2] at hih
      exact hih

/-- The filled-cells fold leaves untouched every cell not listed. -/
theorem fillFold_off (fs : List (Int × Int)) (u1 : Usage) (g : Grid) (x y : Int)
    (h : ∀ p ∈ fs, ¬(p.1 = x ∧ p.2 = y)) :
    matGet none (fs.foldl (revertFillStep u1) g) x y = matGet none g x y := by
  induction fs generalizing g with
  | nil => rfl
  | cons p rest ih =>
    rw [List.foldl_cons]
    have hp := h p (by simp)
    have hne : x ≠ p.1 ∨ y ≠ p.2 := by
      by_cases hr : p.1 = x
      · right
        intro hc
        exact hp ⟨hr, hc.symm⟩
      · left
        exact fun hx => hr hx.symm
    have hstep : matGet none (revertFillStep u1 g p) x y = matGet none g x y := by
      simp only [revertFillStep]
      split
      · rw [setCell_matSet, matGet_matSet_other _ _ _ _ _ _ _ hne]
      · rfl
    rw [ih (revertFillStep u1 g p) (fun q hq => h q (by simp [hq])), hstep]

theorem fillFold_shape (fs : List (Int × Int)) (u1 : Usage) (g : Grid) :
    sameShape (fs.foldl (revertFillStep u1) g) g := by
  induction fs generalizing g with
  | nil => exact sameShape_refl _
  | cons p rest ih =>
    rw [List.foldl_cons]
    refine sameShape_trans (ih (revertFillStep u1 g p)) ?_
    simp only [revertFillStep]
    split
    · rw [setCell_matSet]
      exact sameShape_matSet _ _ _ _
    · exact sameShape_refl _

/-- The filled-cells fold at a listed cell: the letter survives exactly
when some direction still uses the cell in the final usage map. -/
theorem fillFold_on (fs : List (Int × Int)) (u1 : Usage) (g : Grid) (x y : Int)
    (hgb : matInBounds g x y) (hmem : (x, y) ∈ fs) :
    matGet none (fs.foldl (revertFillStep u1) g) x y
      = (if ((getUsage u1 x y).across || (getUsage u1 x y).down) = true
          then matGet none g x y else none) := by
  induction fs generalizing g with
  | nil => exact absurd hmem (by simp)
  | cons p rest ih =>
    rw [List.foldl_cons]
    have hgb' : matInBounds (revertFillStep u1 g p) x y := by
      refine matInBounds_of_sameShape ?_ x y hgb
      simp only [revertFillStep]
      split
      · rw [setCell_matSet]
        exact sameShape_matSet _ _ _ _
      · exact sameShape_refl _
    by_cases hcell : p.1 = x ∧ p.2 = y
    · obtain ⟨hp1, hp2⟩ := hcell
      have hstep : matGet none (revertFillStep u1 g p) x y
          = (if ((getUsage u1 x y).across || (getUsage u1 x y).down) = true
              then matGet none g x y else none) := by
        simp only [revertFillStep, hp1, hp2]
        by_cases hflags : ((getUsage u1 x y).across || (getUsage u1 x y).down) = true
        · have hc : (!(getUsage u1 x y).across && !(getUsage u1 x y).down) = false := by
            rcases (Bool.or_eq_true _ _).mp hflags with h | h <;> simp [h]
          rw [if_pos hflags, if_neg (by simp [hc])]
        · have hff : (getUsage u1 x y).across = false ∧ (getUsage u1 x y).down = false := by
            simp only [Bool.or_eq_true, not_or, Bool.not_eq_true] at hflags
            exact hflags
          have hc : (!(getUsage u1 x y).across && !(getUsage u1 x y).down) = true := by
            simp [hff.1, hff.2]
          rw [if_neg hflags, if_pos hc]
          rw [setCell_matSet, matGet_matSet_self _ _ _ _ _ hgb]
      by_cases hm2 : (x, y) ∈ rest
      · rw [ih (revertFillStep u1 g p) hgb' hm2, hstep]
        by_cases hflags : ((getUsage u1 x y).across || (getUsage u1 x y).down) = true
        · rw [if_pos hflags, if_pos hflags]
        · rw [if_neg hflags, if_neg hflags]
      · have hoff : ∀ q ∈ rest, ¬(q.1 = x ∧ q.2 = y) := by
          intro q hq hqc
          exact hm2 (by
            have : q = (x, y) := Prod.ext hqc.1 hqc.2
            exact this ▸ hq)
        rw [fillFold_off rest u1 (revertFillStep u1 g p) x y hoff, hstep]
    · have hne : x ≠ p.1 ∨ y ≠ p.2 := by
        by_cases hr : p.1 = x
        · right
          intro hc
          exact hcell ⟨hr, hc.symm⟩
        · left
          exact fun hx => hr hx.symm
      have hmem' : (x, y) ∈ rest := by
        rcases List.mem_cons.mp hmem with h | h
        · exact absurd h.symm (fun hh => hcell ⟨congrArg Prod.fst hh, congrArg Prod.snd hh⟩)
        · exact h
      have hstep : matGet none (revertFillStep u1 g p) x y = matGet none g x y := by
        simp only [revertFillStep]
        split
        · rw [setCell_matSet, matGet_matSet_other _ _ _ _ _ _ _ hne]
        · rfl
      rw [ih (revertFillStep u1 g p) hgb' hmem', hstep]

/-! ### C3 support: pointwise behaviour of applyPlacement's loop -/

/-- With a unit direction vector, later path cells differ from the start. -/
theorem pathCell_ne_start (dr dc : Int)
    (hdelta : (dr = 0 ∧ dc = 1) ∨ (dr = 1 ∧ dc = 0))
    (r c : Int) (j : Nat) (hj : 0 < j) :
    (r + dr * (j : Int), c + dc * (j : Int)) ≠ (r, c) := by
  rcases hdelta with ⟨h1, h2⟩ | ⟨h1, h2⟩ <;>
    · subst h1
      subst h2
      intro h
      have h1 := congrArg Prod.fst h
      have h2 := congrArg Prod.snd h
      simp only at h1 h2
      omega

theorem applyGo_shape (w : List Char) (r c dr dc : Int) (key : Direction)
    (G : Grid) (U : Usage) :
    sameShape (applyGo w r c dr dc key G U).1 G ∧
      sameShape (applyGo w r c dr dc key G U).2.1 U := by
  induction w generalizing r c G U with
  | nil => exact ⟨sameShape_refl _, sameShape_refl _⟩
  | cons ch rest ih =>
    simp only [applyGo]
    by_cases hc0 : getCell G r c = none
    · rw [if_pos hc0]
      have := ih (r + dr) (c + dc) (setCell G r c (some ch)) (setUsageFlag U r c key true)
      refine ⟨sameShape_trans this.1 ?_, sameShape_trans this.2 ?_⟩
      · rw [setCell_matSet]
        exact sameShape_matSet _ _ _ _
      · rw [setUsageFlag_matSet]
        exact sameShape_matSet _ _ _ _
    · rw [if_neg hc0]
      have := ih (r + dr) (c + dc) G (setUsageFlag U r c key true)
      refine ⟨this.1, sameShape_trans this.2 ?_⟩
      rw [setUsageFlag_matSet]
      exact sameShape_matSet _ _ _ _

/-- The recorded usage updates are exactly the path cells, in order, all
with the placement's key. -/
theorem applyGo_updates (w : List Char) (r c dr dc : Int) (key : Direction)
    (G : Grid) (U : Usage) :
    (applyGo w r c dr dc key G U).2.2.2
      = (List.range w.length).map
          (fun k => ⟨r + dr * (k : Int), c + dc * (k : Int), key⟩) := by
  induction w generalizing r c G U with
  | nil => simp [applyGo]
  | cons ch rest ih =>
    simp only [applyGo]
    by_cases hc0 : getCell G r c = none
    · rw [if_pos hc0]
      simp only [List.length_cons, List.range_succ_eq_map, List.map_cons, List.map_map]
      rw [ih]
      refine List.cons_eq_cons.mpr ⟨by simp, ?_⟩
      apply List.map_congr_left
      intro k _
      simp only [Function.comp]
      congr 1 <;> push_cast <;> ring
    · rw [if_neg hc0]
      simp only [List.length_cons, List.range_succ_eq_map, List.map_cons, List.map_map]
      rw [ih]
      refine List.cons_eq_cons.mpr ⟨by simp, ?_⟩
      apply List.map_congr_left
      intro k _
      simp only [Function.comp]
      congr 1 <;> push_cast <;> ring

/-- Every recorded filled cell is a path cell that was empty in the
original grid. -/
theorem applyGo_filled (w : List Char) (r c dr dc : Int) (key : Direction)
    (G : Grid) (U : Usage)
    (hdelta : (dr = 0 ∧ dc = 1) ∨ (dr = 1 ∧ dc = 0)) :
    ∀ p ∈ (applyGo w r c dr dc key G U).2.2.1,
      (∃ k, k < w.length ∧ p = (r + dr * (k : Int), c + dc * (k : Int))) ∧
        matGet none G p.1 p.2 = none := by
  induction w generalizing r c G U with
  | nil => simp [applyGo]
  | cons ch rest ih =>
    intro p hp
    simp only [applyGo] at hp
    by_cases hc0 : getCell G r c = none
    · rw [if_pos hc0] at hp
      simp only [List.mem_append] at hp
      rcases hp with hp | hp
      · have hpe : p = (r, c) := by simpa using hp
        subst hpe
        refine ⟨⟨0, by simp, by simp⟩, ?_⟩
        rw [← getCell_matGet]
        exact hc0
      · have := ih (r + dr) (c + dc) (setCell G r c (some ch))
          (setUsageFlag U r c key true) p hp
        obtain ⟨⟨k, hk, hpk⟩, hemp⟩ := this
        have hpk' : p = (r + dr * ((k + 1 : Nat) : Int), c + dc * ((k + 1 : Nat) : Int)) := by
          rw [hpk]
          congr 1 <;> push_cast <;> ring
        refine ⟨⟨k + 1, by simpa using Nat.succ_lt_succ hk, hpk'⟩, ?_⟩
        have hne : p.1 ≠ r ∨ p.2 ≠ c := by
          have := pathCell_ne_start dr dc hdelta r c (k + 1) (Nat.succ_pos k)
          rw [← hpk'] at this
          by_cases h1 : p.1 = r
          · right
            intro h2
            exact this (Prod.ext h1 h2)
          · left
            exact h1
        rw [setCell_matSet, matGet_matSet_other _ _ _ _ _ _ _ hne] at hemp
        exact hemp
    · rw [if_neg hc0] at hp
      simp only [List.nil_append] at hp
      have := ih (r + dr) (c + dc) G (setUsageFlag U r c key true) p hp
      obtain ⟨⟨k, hk, hpk⟩, hemp⟩ := this
      have hpk' : p = (r + dr * ((k + 1 : Nat) : Int), c + dc * ((k + 1 : Nat) : Int)) := by
        rw [hpk]
        congr 1 <;> push_cast <;> ring
      exact ⟨⟨k + 1, by simpa using Nat.succ_lt_succ hk, hpk'⟩, hemp⟩

/-- Cells off the path are untouched by the apply loop. -/
theorem applyGo_off (w : List Char) (r c dr dc : Int) (key : Direction)
    (G : Grid) (U : Usage) (x y : Int)
    (hx : ∀ k, k < w.length → (x, y) ≠ (r + dr * (k : Int), c + dc * (k : Int))) :
    matGet none (applyGo w r c dr dc key G U).1 x y = matGet none G x y ∧
      matGet emptyUsageCell (applyGo w r c dr dc key G U).2.1 x y
        = matGet emptyUsageCell U x y := by
  induction w generalizing r c G U with
  | nil => exact ⟨rfl, rfl⟩
  | cons ch rest ih =>
    have h0 : (x, y) ≠ (r, c) := by
      have := hx 0 (by simp)
      simpa using this
    have hne : x ≠ r ∨ y ≠ c := by
      by_cases h1 : x = r
      · right
        intro h2
        exact h0 (Prod.ext h1 h2)
      · left
        exact h1
    have hx' : ∀ k, k < rest.length →
        (x, y) ≠ ((r + dr) + dr * (k : Int), (c + dc) + dc * (k : Int)) := by
      intro k hk
      have := hx (k + 1) (by simpa using Nat.succ_lt_succ hk)
      intro hcontra
      apply this
      rw [hcontra]
      congr 1 <;> push_cast <;> ring
    simp only [applyGo]
    by_cases hc0 : getCell G r c = none
    · rw [if_pos hc0]
      have := ih (r + dr) (c + dc) (setCell G r c (some ch)) (setUsageFlag U r c key true) hx'
      constructor
      · rw [this.1, setCell_matSet, matGet_matSet_other _ _ _ _ _ _ _ hne]
      · rw [this.2, setUsageFlag_matSet, matGet_matSet_other _ _ _ _ _ _ _ hne]
    · rw [if_neg hc0]
      have := ih (r + dr) (c + dc) G (setUsageFlag U r c key true) hx'
      constructor
      · exact this.1
      · rw [this.2, setUsageFlag_matSet, matGet_matSet_other _ _ _ _ _ _ _ hne]

/-- On a path cell, the apply loop raises the key flag and preserves an
already-present letter. -/
theorem applyGo_on (w : List Char) (r c dr dc : Int) (key : Direction)
    (G : Grid) (U : Usage)
    (hdelta : (dr = 0 ∧ dc = 1) ∨ (dr = 1 ∧ dc = 0))
    (k : Nat) (hk : k < w.length)
    (hub : matInBounds U (r + dr * (k : Int)) (c + dc * (k : Int))) :
    matGet emptyUsageCell (applyGo w r c dr dc key G U).2.1
        (r + dr * (k : Int)) (c + dc * (k : Int))
      = (matGet emptyUsageCell U (r + dr * (k : Int)) (c + dc * (k : Int))).withFlag key true ∧
    (∀ v, matGet none G (r + dr * (k : Int)) (c + dc * (k : Int)) = some v →
      matGet none (applyGo w r c dr dc key G U).1
        (r + dr * (k : Int)) (c + dc * (k : Int)) = some v) := by
  induction w generalizing r c k G U with
  | nil => exact absurd hk (Nat.not_lt_zero k)
  | cons ch rest ih =>
    cases k with
    | zero =>
      simp only [Nat.cast_zero, mul_zero, add_zero] at hub ⊢
      have hxoff : ∀ j, j < rest.length →
          ((r : Int), (c : Int)) ≠ ((r + dr) + dr * (j : Int), (c + dc) + dc * (j : Int)) := by
        intro j hj
        have hne := pathCell_ne_start dr dc hdelta r c (j + 1) (Nat.succ_pos j)
        intro hcontra
        apply hne
        rw [hcontra]
        congr 1 <;> push_cast <;> ring
      simp only [applyGo]
      by_cases hc0 : getCell G r c = none
      · rw [if_pos hc0]
        have hoff := applyGo_off rest (r + dr) (c + dc) dr dc key
          (setCell G r c (some ch)) (setUsageFlag U r c key true) r c hxoff
        constructor
        · rw [hoff.2, setUsageFlag_matSet, matGet_matSet_self _ _ _ _ _ hub]
        · intro v hv
          rw [← getCell_matGet] at hv
          rw [hv] at hc0
          exact absurd hc0 (by simp)
      · rw [if_neg hc0]
        have hoff := applyGo_off rest (r + dr) (c + dc) dr dc key
          G (setUsageFlag U r c key true) r c hxoff
        constructor
        · rw [hoff.2, setUsageFlag_matSet, matGet_matSet_self _ _ _ _ _ hub]
        · intro v hv
          rw [hoff.1, hv]
    | succ k =>
      have hr_eq : r + dr * ((k + 1 : Nat) : Int) = (r + dr) + dr * (k : Int) := by
        push_cast
        ring
      have hc_eq : c + dc * ((k + 1 : Nat) : Int) = (c + dc) + dc * (k : Int) := by
        push_cast
        ring
      have hne0 : (r + dr * ((k + 1 : Nat) : Int), c + dc * ((k + 1 : Nat) : Int)) ≠ (r, c) :=
        pathCell_ne_start dr dc hdelta r c (k + 1) (Nat.succ_pos k)
      have hne' : (r + dr) + dr * (k : Int) ≠ r ∨ (c + dc) + dc * (k : Int) ≠ c := by
        by_cases h1 : (r + dr) + dr * (k : Int) = r
        · right
          intro h2
          exact hne0 (Prod.ext (by rw [hr_eq, h1]) (by rw [hc_eq, h2]))
        · left
          exact h1
      have hk' : k < rest.length := Nat.lt_of_succ_lt_succ hk
      rw [hr_eq, hc_eq] at hub ⊢
      simp only [applyGo]
      by_cases hc0 : getCell G r c = none
      · rw [if_pos hc0]
        have hub' : matInBounds (setUsageFlag U r c key true)
            ((r + dr) + dr * (k : Int)) ((c + dc) + dc * (k : Int)) := by
          refine matInBounds_of_sameShape ?_ _ _ hub
          rw [setUsageFlag_matSet]
          exact sameShape_matSet _ _ _ _
        have hih := ih (r + dr) (c + dc) (setCell G r c (some ch))
          (setUsageFlag U r c key true) k hk' hub'
        constructor
        · rw [hih.1, setUsageFlag_matSet, matGet_matSet_other _ _ _ _ _ _ _ hne']
        · intro v hv
          refine hih.2 v ?_
          rw [setCell_matSet, matGet_matSet_other _ _ _ _ _ _ _ hne']
          exact hv
      · rw [if_neg hc0]
        have hub' : matInBounds (setUsageFlag U r c key true)
            ((r + dr) + dr * (k : Int)) ((c + dc) + dc * (k : Int)) := by
          refine matInBounds_of_sameShape ?_ _ _ hub
          rw [setUsageFlag_matSet]
          exact sameShape_matSet _ _ _ _
        have hih := ih (r + dr) (c + dc) G (setUsageFlag U r c key true) k hk' hub'
        constructor
        · rw [hih.1, setUsageFlag_matSet, matGet_matSet_other _ _ _ _ _ _ _ hne']
        · intro v hv
          exact hih.2 v hv

/-! ### C3 support: bounds from canPlace and square boards -/

/-- A successful `canPlace` pins the whole span inside `[0, size)`. -/
theorem canPlace_true_bounds (word : List Char) (row col : Int) (d : Direction)
    (grid : Grid) (usage : Usage)
    (h : canPlace word row col d grid usage = true) :
    0 ≤ row ∧ 0 ≤ col ∧
      row + deltaRow d * ((word.length : Int) - 1) < (grid.length : Int) ∧
      col + deltaCol d * ((word.length : Int) - 1) < (grid.length : Int) := by
  simp only [canPlace] at h
  split at h
  · exact absurd h (by simp)
  · next hcond =>
    push_neg at hcond
    exact ⟨hcond.1, hcond.2.1, hcond.2.2.1, hcond.2.2.2⟩

/-- On a square board, coordinates inside `[0, size)` address an element. -/
theorem matInBounds_of_square {α} {m : List (List α)} {size : Nat}
    (hs : SquareBoard m size) {r c : Int}
    (h0r : 0 ≤ r) (h0c : 0 ≤ c) (hr : r < (size : Int)) (hc : c < (size : Int)) :
    matInBounds m r c := by
  refine ⟨h0r, h0c, ?_⟩
  have hrn : r.toNat < m.length := by
    rw [hs.1]
    omega
  cases hrow : m.get? r.toNat with
  | none => exact absurd (List.get?_eq_none.mp hrow) (by omega)
  | some row =>
    refine ⟨row, rfl, ?_⟩
    have hmem : row ∈ m := List.get?_mem hrow
    have := hs.2 row hmem
    omega

/-! ### C3: the apply/revert round trip -/

/-- Apply-then-revert restores the board exactly, provided every path cell
is in bounds, carries no prior usage flag for the placement's direction,
and letters agree with usage flags (the search invariant). -/
theorem applyGo_revert_roundtrip (w : List Char) (r c dr dc : Int) (key : Direction)
    (G : Grid) (U : Usage) (G' : Grid) (U' : Usage)
    (fs : List (Int × Int)) (ups : List UsageUpdate)
    (heq : applyGo w r c dr dc key G U = (G', U', fs, ups))
    (hdelta : (dr = 0 ∧ dc = 1) ∨ (dr = 1 ∧ dc = 0))
    (hb : ∀ k, k < w.length →
      matInBounds G (r + dr * (k : Int)) (c + dc * (k : Int)) ∧
        matInBounds U (r + dr * (k : Int)) (c + dc * (k : Int)))
    (hfresh : ∀ k, k < w.length →
      (matGet emptyUsageCell U (r + dr * (k : Int)) (c + dc * (k : Int))).flag key = false)
    (hcons : ∀ k, k < w.length →
      (matGet none G (r + dr * (k : Int)) (c + dc * (k : Int))).isSome
        = ((matGet emptyUsageCell U (r + dr * (k : Int)) (c + dc * (k : Int))).across
            || (matGet emptyUsageCell U (r + dr * (k : Int)) (c + dc * (k : Int))).down)) :
    revertPlacement G' U' fs ups = (G, U) := by
  have hG' : (applyGo w r c dr dc key G U).1 = G' := by rw [heq]
  have hU' : (applyGo w r c dr dc key G U).2.1 = U' := by rw [heq]
  have hfs : (applyGo w r c dr dc key G U).2.2.1 = fs := by rw [heq]
  have hups : (applyGo w r c dr dc key G U).2.2.2 = ups := by rw [heq]
  have hshape := applyGo_shape w r c dr dc key G U
  rw [hG', hU'] at hshape
  have hupseq : ups = (List.range w.length).map
      (fun (k : Nat) => (⟨r + dr * (k : Int), c + dc * (k : Int), key⟩ : UsageUpdate)) := by
    rw [← hups, applyGo_updates]
  have hfillsP : ∀ p ∈ fs,
      (∃ k, k < w.length ∧ p = (r + dr * (k : Int), c + dc * (k : Int))) ∧
        matGet none G p.1 p.2 = none := by
    rw [← hfs]
    exact applyGo_filled w r c dr dc key G U hdelta
  have hUse : (ups.foldl revertUpdStep (G', U')).2 = U := by
    have h1 := (updFold_shape ups (G', U')).2
    dsimp only at h1
    refine matEq_of_pointwise emptyUsageCell _ _ (sameShape_trans h1 hshape.2).1
      (sameShape_trans h1 hshape.2).2 ?_
    intro x y
    by_cases hp : ∃ k, k < w.length ∧
        ((x : Int), (y : Int)) = (r + dr * (k : Int), c + dc * (k : Int))
    · obtain ⟨k, hk, hcell⟩ := hp
      have hx_eq : (x : Int) = r + dr * (k : Int) := congrArg Prod.fst hcell
      have hy_eq : (y : Int) = c + dc * (k : Int) := congrArg Prod.snd hcell
      have hbk := hb k hk
      have hon := applyGo_on w r c dr dc key G U hdelta k hk hbk.2
      rw [hG', hU'] at hon
      rw [← hx_eq, ← hy_eq] at hon hbk
      have hfreshk := hfresh k hk
      rw [← hx_eq, ← hy_eq] at hfreshk
      have hgb' : matInBounds G' (x : Int) (y : Int) :=
        matInBounds_of_sameShape hshape.1 _ _ hbk.1
      have hub' : matInBounds U' (x : Int) (y : Int) :=
        matInBounds_of_sameShape hshape.2 _ _ hbk.2
      have hmem : (⟨(x : Int), (y : Int), key⟩ : UsageUpdate) ∈ ups := by
        rw [hupseq]
        refine List.mem_map.mpr ⟨k, List.mem_range.mpr hk, ?_⟩
        rw [hx_eq, hy_eq]
      have hkey : ∀ u ∈ ups, u.row = (x : Int) → u.col = (y : Int) → u.key = key := by
        rw [hupseq]
        intro u hu _ _
        obtain ⟨j, _, hj⟩ := List.mem_map.mp hu
        rw [← hj]
      have hfold := updFold_on ups (G', U') (x : Int) (y : Int) key hgb' hub' hmem hkey
      dsimp only at hfold
      rw [hfold.1, hon.1, UsageCell.withFlag_same, UsageCell.withFlag_self _ _ hfreshk]
    · have hxoff : ∀ k, k < w.length →
          ((x : Int), (y : Int)) ≠ (r + dr * (k : Int), c + dc * (k : Int)) :=
        fun k hk heq2 => hp ⟨k, hk, heq2⟩
      have hoffA := applyGo_off w r c dr dc key G U (x : Int) (y : Int) hxoff
      rw [hG', hU'] at hoffA
      have hoff_ups : ∀ u ∈ ups, ¬(u.row = (x : Int) ∧ u.col = (y : Int)) := by
        rw [hupseq]
        intro u hu hcontra
        obtain ⟨j, hj, hju⟩ := List.mem_map.mp hu
        rw [← hju] at hcontra
        exact hxoff j (List.mem_range.mp hj) (Prod.ext hcontra.1.symm hcontra.2.symm)
      have hfoldo := updFold_off ups (G', U') (x : Int) (y : Int) hoff_ups
      dsimp only at hfoldo
      rw [hfoldo.2, hoffA.2]
  have hGrid : fs.foldl (revertFillStep (ups.foldl revertUpdStep (G', U')).2)
      (ups.foldl revertUpdStep (G', U')).1 = G := by
    have h2 := (updFold_shape ups (G', U')).1
    dsimp only at h2
    have hshG : sameShape (fs.foldl (revertFillStep (ups.foldl revertUpdStep (G', U')).2)
        (ups.foldl revertUpdStep (G', U')).1) G :=
      sameShape_trans (fillFold_shape fs _ _) (sameShape_trans h2 hshape.1)
    refine matEq_of_pointwise none _ _ hshG.1 hshG.2 ?_
    intro x y
    by_cases hp : ∃ k, k < w.length ∧
        ((x : Int), (y : Int)) = (r + dr * (k : Int), c + dc * (k : Int))
    · obtain ⟨k, hk, hcell⟩ := hp
      have hx_eq : (x : Int) = r + dr * (k : Int) := congrArg Prod.fst hcell
      have hy_eq : (y : Int) = c + dc * (k : Int) := congrArg Prod.snd hcell
      have hbk := hb k hk
      have hon := applyGo_on w r c dr dc key G U hdelta k hk hbk.2
      rw [hG', hU'] at hon
      rw [← hx_eq, ← hy_eq] at hon hbk
      have hfreshk := hfresh k hk
      rw [← hx_eq, ← hy_eq] at hfreshk
      have hconsk := hcons k hk
      rw [← hx_eq, ← hy_eq] at hconsk
      have hgb' : matInBounds G' (x : Int) (y : Int) :=
        matInBounds_of_sameShape hshape.1 _ _ hbk.1
      have hub' : matInBounds U' (x : Int) (y : Int) :=
        matInBounds_of_sameShape hshape.2 _ _ hbk.2
      have hmem : (⟨(x : Int), (y : Int), key⟩ : UsageUpdate) ∈ ups := by
        rw [hupseq]
        refine List.mem_map.mpr ⟨k, List.mem_range.mpr hk, ?_⟩
        rw [hx_eq, hy_eq]
      have hkey : ∀ u ∈ ups, u.row = (x : Int) → u.col = (y : Int) → u.key = key := by
        rw [hupseq]
        intro u hu _ _
        obtain ⟨j, _, hj⟩ := List.mem_map.mp hu
        rw [← hj]
      have hfold := updFold_on ups (G', U') (x : Int) (y : Int) key hgb' hub' hmem hkey
      dsimp only at hfold
      rw [hon.1, UsageCell.withFlag_same, UsageCell.withFlag_self _ _ hfreshk] at hfold
      cases hGv : matGet none G ((x : Int)) ((y : Int)) with
      | some v =>
        have hT : ((matGet emptyUsageCell U (x : Int) (y : Int)).across
            || (matGet emptyUsageCell U (x : Int) (y : Int)).down) = true := by
          rw [← hconsk, hGv]
          rfl
        rw [if_pos hT] at hfold
        have hG'v : matGet none G' (x : Int) (y : Int) = some v := hon.2 v hGv
        have hnotfs : ∀ p ∈ fs, ¬(p.1 = (x : Int) ∧ p.2 = (y : Int)) := by
          intro p hpf hcontra
          have hemp := (hfillsP p hpf).2
          rw [hcontra.1, hcontra.2, hGv] at hemp
          exact absurd hemp (by simp)
        rw [fillFold_off fs _ _ _ _ hnotfs, hfold.2, hG'v]
      | none =>
        have hF : ¬(((matGet emptyUsageCell U (x : Int) (y : Int)).across
            || (matGet emptyUsageCell U (x : Int) (y : Int)).down) = true) := by
          rw [← hconsk, hGv]
          simp
        rw [if_neg hF] at hfold
        by_cases hmf : ((x : Int), (y : Int)) ∈ fs
        · have hgul : matInBounds (ups.foldl revertUpdStep (G', U')).1 (x : Int) (y : Int) :=
            matInBounds_of_sameShape h2 _ _ hgb'
          rw [fillFold_on fs _ _ _ _ hgul hmf, hfold.2, ite_self]
        · have hnotfs : ∀ p ∈ fs, ¬(p.1 = (x : Int) ∧ p.2 = (y : Int)) := by
            intro p hpf hcontra
            apply hmf
            have hpe : p = ((x : Int), (y : Int)) := Prod.ext hcontra.1 hcontra.2
            rw [← hpe]
            exact hpf
          rw [fillFold_off fs _ _ _ _ hnotfs, hfold.2]
    · have hxoff : ∀ k, k < w.length →
          ((x : Int), (y : Int)) ≠ (r + dr * (k : Int), c + dc * (k : Int)) :=
        fun k hk heq2 => hp ⟨k, hk, heq2⟩
      have hoffA := applyGo_off w r c dr dc key G U (x : Int) (y : Int) hxoff
      rw [hG', hU'] at hoffA
      have hoff_ups : ∀ u ∈ ups, ¬(u.row = (x : Int) ∧ u.col = (y : Int)) := by
        rw [hupseq]
        intro u hu hcontra
        obtain ⟨j, hj, hju⟩ := List.mem_map.mp hu
        rw [← hju] at hcontra
        exact hxoff j (List.mem_range.mp hj) (Prod.ext hcontra.1.symm hcontra.2.symm)
      have hfoldo := updFold_off ups (G', U') (x : Int) (y : Int) hoff_ups
      dsimp only at hfoldo
      have hnotfs : ∀ p ∈ fs, ¬(p.1 = (x : Int) ∧ p.2 = (y : Int)) := by
        intro p hpf hcontra
        obtain ⟨⟨k, hk, hpk⟩, _⟩ := hfillsP p hpf
        apply hxoff k hk
        rw [← hcontra.1, ← hcontra.2, ← hpk]
      rw [fillFold_off fs _ _ _ _ hnotfs, hfoldo.1, hoffA.1]
  exact Prod.ext hGrid hUse

/-- C3 (amended): on a square working board whose letters agree with its
usage flags, applying a `canPlace`-legal placement none of whose cells
already carries the placement's own direction flag, and then reverting with
the returned records, restores `grid` and `usage` exactly.  (The freshness
hypothesis is essential: re-covering a cell already used in the same
direction makes the revert clear letters and flags that predate the
placement, which is the corruption exhibited by the counterexample.) -/
theorem applyPlacement_revertPlacement_roundtrip
    (size : Nat) (grid : Grid) (usage : Usage)
    (entry : Entry) (entryIndex : Nat) (row col : Int) (direction : Direction)
    (hg : SquareBoard grid size) (hu : SquareBoard usage size)
    (hcp : canPlace entry.word row col direction grid usage = true)
    (hfresh : ∀ k, k < entry.word.length →
      (getUsage usage (row + deltaRow direction * (k : Int))
          (col + deltaCol direction * (k : Int))).flag direction = false)
    (hcons : ∀ k, k < entry.word.length →
      consistentAt grid usage (row + deltaRow direction * (k : Int))
        (col + deltaCol direction * (k : Int))) :
    revertPlacement
      (applyPlacement entry entryIndex row col direction grid usage).grid
      (applyPlacement entry entryIndex row col direction grid usage).usage
      (applyPlacement entry entryIndex row col direction grid usage).filledCells
      (applyPlacement entry entryIndex row col direction grid usage).usageUpdates
    = (grid, usage) := by
  have hdelta : (deltaRow direction = 0 ∧ deltaCol direction = 1)
      ∨ (deltaRow direction = 1 ∧ deltaCol direction = 0) := by
    cases direction
    · exact Or.inl ⟨rfl, rfl⟩
    · exact Or.inr ⟨rfl, rfl⟩
  have hcb := canPlace_true_bounds entry.word row col direction grid usage hcp
  have hb : ∀ k, k < entry.word.length →
      matInBounds grid (row + deltaRow direction * (k : Int))
          (col + deltaCol direction * (k : Int)) ∧
        matInBounds usage (row + deltaRow direction * (k : Int))
          (col + deltaCol direction * (k : Int)) := by
    intro k hk
    obtain ⟨h1, h2, h3, h4⟩ := hcb
    rw [hg.1] at h3 h4
    have hklt : (k : Int) < (entry.word.length : Int) := by exact_mod_cast hk
    have hcoord : 0 ≤ row + deltaRow direction * (k : Int) ∧
        0 ≤ col + deltaCol direction * (k : Int) ∧
        row + deltaRow direction * (k : Int) < (size : Int) ∧
        col + deltaCol direction * (k : Int) < (size : Int) := by
      rcases hdelta with ⟨hd1, hd2⟩ | ⟨hd1, hd2⟩ <;>
        · simp only [hd1, hd2] at h3 h4 ⊢
          refine ⟨by omega, by omega, by omega, by omega⟩
    exact ⟨matInBounds_of_square hg hcoord.1 hcoord.2.1 hcoord.2.2.1 hcoord.2.2.2,
      matInBounds_of_square hu hcoord.1 hcoord.2.1 hcoord.2.2.1 hcoord.2.2.2⟩
  have hfresh' : ∀ k, k < entry.word.length →
      (matGet emptyUsageCell usage (row + deltaRow direction * (k : Int))
          (col + deltaCol direction * (k : Int))).flag direction = false := by
    intro k hk
    have := hfresh k hk
    rwa [getUsage_matGet] at this
  have hcons' : ∀ k, k < entry.word.length →
      (matGet none grid (row + deltaRow direction * (k : Int))
          (col + deltaCol direction * (k : Int))).isSome
        = ((matGet emptyUsageCell usage (row + deltaRow direction * (k : Int))
              (col + deltaCol direction * (k : Int))).across
            || (matGet emptyUsageCell usage (row + deltaRow direction * (k : Int))
                  (col + deltaCol direction * (k : Int))).down) := by
    intro k hk
    have := hcons k hk
    rwa [consistentAt, getCell_matGet, getUsage_matGet] at this
  exact applyGo_revert_roundtrip entry.word row col
    (deltaRow direction) (deltaCol direction) direction grid usage
    (applyPlacement entry entryIndex row col direction grid usage).grid
    (applyPlacement entry entryIndex row col direction grid usage).usage
    (applyPlacement entry entryIndex row col direction grid usage).filledCells
    (applyPlacement entry entryIndex row col direction grid usage).usageUpdates
    rfl hdelta hb hfresh' hcons'

/-- Witness for the amended C3 round trip: the word "AB" placed across at
the origin of the empty 3 by 3 board, applied and reverted. -/
theorem applyPlacement_revertPlacement_roundtrip_witness :
    revertPlacement
      (applyPlacement ⟨"AB".data, "c", 0⟩ 0 0 0 .across
        (createEmptyGrid 3) (createUsageGrid 3)).grid
      (applyPlacement ⟨"AB".data, "c", 0⟩ 0 0 0 .across
        (createEmptyGrid 3) (createUsageGrid 3)).usage
      (applyPlacement ⟨"AB".data, "c", 0⟩ 0 0 0 .across
        (createEmptyGrid 3) (createUsageGrid 3)).filledCells
      (applyPlacement ⟨"AB".data, "c", 0⟩ 0 0 0 .across
        (createEmptyGrid 3) (createUsageGrid 3)).usageUpdates
    = (createEmptyGrid 3, createUsageGrid 3) :=
  applyPlacement_revertPlacement_roundtrip 3 (createEmptyGrid 3) (createUsageGrid 3)
    ⟨"AB".data, "c", 0⟩ 0 0 0 .across
    ⟨by decide, by decide⟩ ⟨by decide, by decide⟩ (by decide)
    (by decide) (by simp only [consistentAt]; decide)

/-- Counterexample to C3 as stated: a board reached by two legal commits
("EDDB" across at (1,1), then "EA" down at (1,1) crossing it), on which
re-placing "EA" down at (1,1) still passes `canPlace` (every covered cell
already holds the matching letter), yet applying it and reverting with the
returned records does not restore the state: the revert clears the down
flags of both cells and erases the letter A at (2,1). -/
theorem revertPlacement_corrupts_reachable_state :
    ∃ grid usage, SearchReachable 5 grid usage ∧
      canPlace c3EntryB.word 1 1 .down grid usage = true ∧
      revertPlacement
        (applyPlacement c3EntryB 2 1 1 .down grid usage).grid
        (applyPlacement c3EntryB 2 1 1 .down grid usage).usage
        (applyPlacement c3EntryB 2 1 1 .down grid usage).filledCells
        (applyPlacement c3EntryB 2 1 1 .down grid usage).usageUpdates
      ≠ (grid, usage) := by
  refine ⟨_, _,
    SearchReachable.step _ _ c3EntryB 1 1 1 .down
      (SearchReachable.step _ _ c3EntryA 0 1 1 .across
        SearchReachable.init (by decide))
      (by decide),
    by decide, by decide⟩

end Crossword
